import Mathlib

/-!
Verification of the SpeechSynthesizer capability agent
(src/CapabilityAgents/SpeechSynthesizer/include/SpeechSynthesizer/SpeechSynthesizer.h).

Only the class header of the agent is available in the source tree; the method bodies
live in a separate implementation file that is not present.  The definitions below are
therefore a shallow embedding reconstructed from the specification: the agent state
mirrors the header's member variables, and every operation is one task of the
serialized executor (spec section 4.1), modelled as a pure function from the agent
state to the new state plus the list of calls made to external collaborators.
-/

namespace SpeechSynth

/-- Observable playback state of the agent (header type
SpeechSynthesizerObserver::SpeechSynthesizerState).  The spec (section 3) calls the
confirmed non-playing state IDLE; the header's type has the two values PLAYING and
FINISHED, with FINISHED playing the role of IDLE. -/
inductive SpeechSynthesizerState
  | playing
  | finished
deriving DecidableEq

/-- Focus grant received from the external focus arbiter (avsCommon::avs::FocusState). -/
inductive FocusState
  | foreground
  | background
  | noFocus
deriving DecidableEq

/-- Modelled from the spec: data carried for one Speak directive (header nested class
SpeechSynthesizer::SpeakDirectiveInfo, whose implementation file is missing).  The
directive handler result and the attachment reader are modelled by a presence flag and
an optional handle; the token is optional because pre-admission validation checks for
its absence (spec section 4.2, MalformedPayload). -/
structure SpeakDirectiveInfo where
  messageId : String
  token : Option String
  attachmentReader : Option Nat
  hasResult : Bool
  sendPlaybackFinishedMessage : Bool
  sendCompletedMessage : Bool
deriving DecidableEq

/-- Calls issued by the agent to its external collaborators: the audio engine, the
focus arbiter, the protocol layer, the context store, per-request result callbacks and
the observer set (spec section 6). -/
inductive ExtCall
  | acquireChannel
  | releaseChannel
  | setSourceAndPlay (messageId : String)
  | stopSpeechPlayer
  | sendMessageEvent (eventName : String) (token : String)
  | sendExceptionEncountered (messageId : String) (description : String)
  | setCompleted (messageId : String)
  | setFailed (messageId : String) (description : String)
  | clearResources (messageId : String)
  | notifyObservers (state : SpeechSynthesizerState)
  | setContextState (token : String) (offsetInMilliseconds : Int)
deriving DecidableEq

/-- Engine-session phase for the current request: play was requested but not yet
confirmed, or the engine confirmed that playback started.  Used to state which
engine callbacks a conforming audio engine may deliver. -/
inductive PlaybackPhase
  | idle
  | playRequested
  | started
deriving DecidableEq

/-- Modelled from the spec: the agent state.  The implementation file of the
SpeechSynthesizer is missing from the source tree, so the member variables of the
header (m_speakDirectiveInfoMap, m_speakInfoQueue, m_currentState, m_desiredState,
m_currentFocus, m_currentInfo) are reconstructed from spec sections 3 to 5.
playbackPhase records the audio-engine session phase and admittedOrder the admission
order; both are specification bookkeeping used to state properties. -/
structure ModelState where
  speakDirectiveInfoMap : List (String × SpeakDirectiveInfo)
  speakInfoQueue : List SpeakDirectiveInfo
  currentState : SpeechSynthesizerState
  desiredState : SpeechSynthesizerState
  currentFocus : FocusState
  currentInfo : Option SpeakDirectiveInfo
  isShutdown : Bool
  playbackPhase : PlaybackPhase
  admittedOrder : List String
deriving DecidableEq

/-- Inbound operations funneled through the serialized executor (spec section 2):
two-phase admission (preHandle, handle), single-shot admission, cancellation, focus
notifications, playback-engine callbacks, state queries and shutdown. -/
inductive Op
  | preHandle (info : SpeakDirectiveInfo)
  | handle (messageId : String)
  | handleImmediately (info : SpeakDirectiveInfo)
  | cancel (messageId : String)
  | focusChanged (newFocus : FocusState)
  | playbackStarted
  | playbackFinished
  | playbackError (description : String)
  | provideState (stateRequestToken : Nat)
  | shutdown
deriving DecidableEq

/-- Lookup in the pending-request registry (header m_speakDirectiveInfoMap). -/
def lookupId : List (String × SpeakDirectiveInfo) → String → Option SpeakDirectiveInfo
  | [], _ => none
  | (k, v) :: rest, id => if k = id then some v else lookupId rest id

/-- Remove the first entry with the given key from the registry. -/
def removeKey : List (String × SpeakDirectiveInfo) → String → List (String × SpeakDirectiveInfo)
  | [], _ => []
  | (k, v) :: rest, id => if k = id then rest else (k, v) :: removeKey rest id

/-- Remove the first request with the given messageId from the playback queue. -/
def removeById : List SpeakDirectiveInfo → String → List SpeakDirectiveInfo
  | [], _ => []
  | r :: rest, id => if r.messageId = id then rest else r :: removeById rest id

/-- Whether some queued request carries the given messageId. -/
def containsId (q : List SpeakDirectiveInfo) (id : String) : Bool :=
  q.any (fun r => r.messageId == id)

/-- Keys of the registry entries, in order. -/
def mapIds (m : List (String × SpeakDirectiveInfo)) : List String :=
  m.map (fun e => e.1)

/-- Message ids of the queued requests, in order. -/
def queueIds (q : List SpeakDirectiveInfo) : List String :=
  q.map (fun r => r.messageId)

/-- Token string carried in outbound events (empty when the token is missing). -/
def tokenOf (info : SpeakDirectiveInfo) : String :=
  info.token.getD ""

/-- Modelled from the spec: pre-admission validation of the required payload fields,
the token and the audio source (spec sections 4.2 and 7, MalformedPayload; header
sendExceptionEncounteredAndReportMissingProperty). -/
def missingProperty (info : SpeakDirectiveInfo) : Option String :=
  match info.token with
  | none => some "token"
  | some _ =>
    match info.attachmentReader with
    | none => some "url"
    | some _ => none

/-- Modelled from the spec: release the FOREGROUND focus if we have it (header
releaseForegroundFocus, implementation missing). -/
def releaseForegroundFocus (s : ModelState) : ModelState × List ExtCall :=
  if s.currentFocus = FocusState.foreground then
    ({ s with currentFocus := FocusState.noFocus }, [ExtCall.releaseChannel])
  else (s, [])

/-- Modelled from the spec: push an admitted request onto the playback queue; if the
queue was empty immediately before the push, ask the focus client for FOREGROUND
focus (spec section 4.2; header addToDirectiveQueue, implementation missing). -/
def addToDirectiveQueue (s : ModelState) (info : SpeakDirectiveInfo) : ModelState × List ExtCall :=
  ({ s with
      speakInfoQueue := s.speakInfoQueue ++ [info],
      admittedOrder := s.admittedOrder ++ [info.messageId] },
   if s.speakInfoQueue.isEmpty then [ExtCall.acquireChannel] else [])

/-- Modelled from the spec: the pre-admission phase (header executePreHandle,
implementation missing).  A request with a missing required field is rejected with an
exception report, a failure report where a result callback exists, and its resources
released; a duplicate key is rejected without mutation; otherwise the request is
registered in the pending-request registry (spec sections 4.2 and 7). -/
def executePreHandle (s : ModelState) (info : SpeakDirectiveInfo) : ModelState × List ExtCall :=
  match missingProperty info with
  | some prop =>
      (s, [ExtCall.sendExceptionEncountered info.messageId ("missing property " ++ prop)]
          ++ (if info.hasResult then
                [ExtCall.setFailed info.messageId ("missing property " ++ prop)] else [])
          ++ [ExtCall.clearResources info.messageId])
  | none =>
      match lookupId s.speakDirectiveInfoMap info.messageId with
      | some _ =>
          (s, [ExtCall.sendExceptionEncountered info.messageId "duplicate messageId"])
      | none =>
          ({ s with speakDirectiveInfoMap := (info.messageId, info) :: s.speakDirectiveInfoMap },
           [])

/-- Modelled from the spec: admission (header executeHandle, implementation missing).
An absent registry entry fails with UnknownKey and changes no state; otherwise the
entry is removed from the registry and the request is pushed onto the playback queue
(spec section 4.2). -/
def executeHandle (s : ModelState) (messageId : String) : ModelState × List ExtCall :=
  match lookupId s.speakDirectiveInfoMap messageId with
  | none => (s, [ExtCall.sendExceptionEncountered messageId "unknown messageId"])
  | some info =>
      addToDirectiveQueue
        { s with speakDirectiveInfoMap := removeKey s.speakDirectiveInfoMap messageId } info

/-- Modelled from the spec: single-shot admission (header executeHandleImmediately,
implementation missing).  Constructs a request with no result callback, skips the
registry, and otherwise follows the same queue and focus logic as admission
(spec section 4.2). -/
def executeHandleImmediately (s : ModelState) (info : SpeakDirectiveInfo) : ModelState × List ExtCall :=
  let immediateInfo := { info with hasResult := false, sendCompletedMessage := false }
  match missingProperty immediateInfo with
  | some prop =>
      (s, [ExtCall.sendExceptionEncountered info.messageId ("missing property " ++ prop),
           ExtCall.clearResources info.messageId])
  | none => addToDirectiveQueue s immediateInfo

/-- Modelled from the spec: hand the head request's audio source to the audio engine
and issue play; the head request becomes current (spec section 4.3; header
startPlaying, implementation missing). -/
def startPlaying (s : ModelState) : ModelState × List ExtCall :=
  match s.speakInfoQueue with
  | [] => (s, [])
  | info :: _ =>
      ({ s with currentInfo := some info, playbackPhase := PlaybackPhase.playRequested },
       [ExtCall.setSourceAndPlay info.messageId])

/-- Modelled from the spec: compare the desired state with the current state and the
queue occupancy; start playing the queue head when the desired state is PLAYING and no
playback is in progress, issue a stop when the desired state is FINISHED while
playing (spec section 4.3; header executeStateChange, implementation missing). -/
def executeStateChange (s : ModelState) : ModelState × List ExtCall :=
  match s.desiredState with
  | SpeechSynthesizerState.playing =>
      if s.playbackPhase = PlaybackPhase.idle then startPlaying s else (s, [])
  | SpeechSynthesizerState.finished =>
      if s.currentState = SpeechSynthesizerState.playing then (s, [ExtCall.stopSpeechPlayer])
      else (s, [])

/-- Modelled from the spec: the desired state computed from the new focus, FOREGROUND
mapping to PLAYING and everything else to FINISHED (spec section 4.3; header
setDesiredStateLocked, implementation missing). -/
def setDesiredState (newFocus : FocusState) : SpeechSynthesizerState :=
  match newFocus with
  | FocusState.foreground => SpeechSynthesizerState.playing
  | _ => SpeechSynthesizerState.finished

/-- Modelled from the spec: a focus notification updates the current focus and the
desired state, then runs the state-change task (spec section 4.4; header
onFocusChanged, implementation missing). -/
def executeOnFocusChanged (s : ModelState) (newFocus : FocusState) : ModelState × List ExtCall :=
  executeStateChange
    { s with currentFocus := newFocus, desiredState := setDesiredState newFocus }

/-- Modelled from the spec: the playback-started callback sets the current state to
PLAYING, notifies observers and pushes a state update (spec section 4.3; header
executePlaybackStarted, implementation missing). -/
def executePlaybackStarted (s : ModelState) : ModelState × List ExtCall :=
  match s.currentInfo with
  | none => (s, [])
  | some info =>
      ({ s with
          currentState := SpeechSynthesizerState.playing,
          playbackPhase := PlaybackPhase.started },
       [ExtCall.notifyObservers SpeechSynthesizerState.playing,
        ExtCall.setContextState (tokenOf info) 0,
        ExtCall.sendMessageEvent "SpeechStartedEvent" (tokenOf info)])

/-- Modelled from the spec: the playback-finished callback emits the finish event and
the completion report when the request's flags ask for them, releases the current
request's resources, pops it from the queue, and either immediately starts the new
head or releases focus when the queue drained (spec section 4.3; header
executePlaybackFinished, implementation missing). -/
def executePlaybackFinished (s : ModelState) : ModelState × List ExtCall :=
  match s.currentInfo with
  | none => (s, [])
  | some info =>
      let calls :=
        [ExtCall.notifyObservers SpeechSynthesizerState.finished,
         ExtCall.setContextState (tokenOf info) 0]
        ++ (if info.sendPlaybackFinishedMessage then
              [ExtCall.sendMessageEvent "SpeechFinishedEvent" (tokenOf info)] else [])
        ++ (if info.sendCompletedMessage then [ExtCall.setCompleted info.messageId] else [])
        ++ [ExtCall.clearResources info.messageId]
      let rest := s.speakInfoQueue.tail
      let s1 := { s with
          currentState := SpeechSynthesizerState.finished,
          speakInfoQueue := rest,
          currentInfo := none,
          playbackPhase := PlaybackPhase.idle }
      match rest with
      | [] =>
          let r2 := releaseForegroundFocus s1
          (r2.1, calls ++ r2.2)
      | _ :: _ =>
          let r2 := startPlaying s1
          (r2.1, calls ++ r2.2)

/-- Modelled from the spec: the playback-error callback reports failure via the result
callback when present and otherwise sends an exception report, releases the current
request's resources, pops it from the queue, and releases focus without starting the
next queued request (spec section 4.3; header executePlaybackError, implementation
missing). -/
def executePlaybackError (s : ModelState) (description : String) : ModelState × List ExtCall :=
  match s.currentInfo with
  | none => (s, [])
  | some info =>
      let failCalls :=
        if info.hasResult then [ExtCall.setFailed info.messageId description]
        else [ExtCall.sendExceptionEncountered info.messageId description]
      let s1 := { s with
          currentState := SpeechSynthesizerState.finished,
          desiredState := SpeechSynthesizerState.finished,
          speakInfoQueue := s.speakInfoQueue.tail,
          currentInfo := none,
          playbackPhase := PlaybackPhase.idle }
      let r2 := releaseForegroundFocus s1
      (r2.1, [ExtCall.notifyObservers SpeechSynthesizerState.finished] ++ failCalls
             ++ [ExtCall.clearResources info.messageId] ++ r2.2)

/-- Modelled from the spec: cancellation of a request that is not current removes it
from the playback queue, or from the pending-request registry when it is still only
pre-admitted, and releases its resources with no other call (spec section 4.2;
part of header executeCancel, implementation missing). -/
def executeCancelNonCurrent (s : ModelState) (messageId : String) : ModelState × List ExtCall :=
  if containsId s.speakInfoQueue messageId then
    ({ s with speakInfoQueue := removeById s.speakInfoQueue messageId },
     [ExtCall.clearResources messageId])
  else
    match lookupId s.speakDirectiveInfoMap messageId with
    | some _ =>
        ({ s with speakDirectiveInfoMap := removeKey s.speakDirectiveInfoMap messageId },
         [ExtCall.clearResources messageId])
    | none => (s, [])

/-- Modelled from the spec: cancellation (header executeCancel, implementation
missing).  Cancelling the current request issues a stop to the audio engine and lets
the resulting callback drive the completion bookkeeping; cancelling a non-current
request removes and clears it with no event emitted (spec section 4.2). -/
def executeCancel (s : ModelState) (messageId : String) : ModelState × List ExtCall :=
  match s.currentInfo with
  | some info =>
      if info.messageId = messageId then (s, [ExtCall.stopSpeechPlayer])
      else executeCancelNonCurrent s messageId
  | none => executeCancelNonCurrent s messageId

/-- Modelled from the spec: answer a state query by pushing the current token and
offset to the context store (spec section 4.5; header executeProvideState,
implementation missing). -/
def executeProvideState (s : ModelState) (_stateRequestToken : Nat) : ModelState × List ExtCall :=
  (s, [ExtCall.setContextState
        (match s.currentInfo with
         | some info => tokenOf info
         | none => "") 0])

/-- Modelled from the spec: shutdown cancels all pending and current requests,
releasing the resources of every registry entry and every queued request, stops the
player when a request is current, and releases focus if held; afterwards all public
calls are no-ops (spec section 5; header doShutdown, implementation missing). -/
def doShutdown (s : ModelState) : ModelState × List ExtCall :=
  ({ speakDirectiveInfoMap := [],
     speakInfoQueue := [],
     currentState := SpeechSynthesizerState.finished,
     desiredState := SpeechSynthesizerState.finished,
     currentFocus := FocusState.noFocus,
     currentInfo := none,
     isShutdown := true,
     playbackPhase := PlaybackPhase.idle,
     admittedOrder := s.admittedOrder },
   (if s.currentInfo.isSome then [ExtCall.stopSpeechPlayer] else [])
   ++ (s.speakDirectiveInfoMap.map (fun e => ExtCall.clearResources e.1))
   ++ (s.speakInfoQueue.map (fun r => ExtCall.clearResources r.messageId))
   ++ (if s.currentFocus = FocusState.foreground then [ExtCall.releaseChannel] else []))

/-- Modelled from the spec: one serialized-executor task.  After shutdown all public
calls are no-ops (spec section 5). -/
def step (s : ModelState) (op : Op) : ModelState × List ExtCall :=
  if s.isShutdown then (s, [])
  else
    match op with
    | Op.preHandle info => executePreHandle s info
    | Op.handle messageId => executeHandle s messageId
    | Op.handleImmediately info => executeHandleImmediately s info
    | Op.cancel messageId => executeCancel s messageId
    | Op.focusChanged newFocus => executeOnFocusChanged s newFocus
    | Op.playbackStarted => executePlaybackStarted s
    | Op.playbackFinished => executePlaybackFinished s
    | Op.playbackError description => executePlaybackError s description
    | Op.provideState t => executeProvideState s t
    | Op.shutdown => doShutdown s

/-- The freshly constructed agent state (header constructor initializer list:
FINISHED current and desired state, no focus, nothing pending). -/
def initialState : ModelState :=
  { speakDirectiveInfoMap := [],
    speakInfoQueue := [],
    currentState := SpeechSynthesizerState.finished,
    desiredState := SpeechSynthesizerState.finished,
    currentFocus := FocusState.noFocus,
    currentInfo := none,
    isShutdown := false,
    playbackPhase := PlaybackPhase.idle,
    admittedOrder := [] }

/-- Run a sequence of executor tasks, accumulating the external calls in order. -/
def run : ModelState → List Op → ModelState × List ExtCall
  | s, [] => (s, [])
  | s, op :: ops =>
      let r1 := step s op
      let r2 := run r1.1 ops
      (r2.1, r1.2 ++ r2.2)

/-- Attribution of a started or finished engine callback to the request it is
processed for, used to state the FIFO pairing property of spec section 8. -/
inductive SFEvent
  | startedFor (messageId : String)
  | finishedFor (messageId : String)
deriving DecidableEq

/-- The started and finished callback processed in one executor task, attributed to
the current request. -/
def stepSF (s : ModelState) (op : Op) : List SFEvent :=
  if s.isShutdown then []
  else
    match op, s.currentInfo with
    | Op.playbackStarted, some info => [SFEvent.startedFor info.messageId]
    | Op.playbackFinished, some info => [SFEvent.finishedFor info.messageId]
    | _, _ => []

/-- The sequence of started and finished callbacks processed over a run, each
attributed to its request. -/
def runSF : ModelState → List Op → List SFEvent
  | _, [] => []
  | s, op :: ops => stepSF s op ++ runSF (step s op).1 ops

/-- Which operations a conforming audio engine may deliver in a given state: a
started callback only after play was requested, a finished callback only after a
confirmed start, an error only during a playback session. -/
def allowedOp (s : ModelState) : Op → Bool
  | Op.playbackStarted => s.playbackPhase == PlaybackPhase.playRequested
  | Op.playbackFinished => s.playbackPhase == PlaybackPhase.started
  | Op.playbackError _ => s.playbackPhase != PlaybackPhase.idle
  | _ => true

/-- An operation sequence conforms to the audio-engine contract (spec section 6) when
every engine callback is delivered in a phase where the engine could produce it. -/
def engineConforming : ModelState → List Op → Bool
  | _, [] => true
  | s, op :: ops => allowedOp s op && engineConforming (step s op).1 ops

/-- The message ids introduced by admission operations, in order of arrival. -/
def admissionIds : List Op → List String
  | [] => []
  | Op.preHandle info :: ops => info.messageId :: admissionIds ops
  | Op.handleImmediately info :: ops => info.messageId :: admissionIds ops
  | _ :: ops => admissionIds ops

/-- Operations other than cancellation, playback error and shutdown. -/
def isQuietOp : Op → Bool
  | Op.cancel _ => false
  | Op.playbackError _ => false
  | Op.shutdown => false
  | _ => true

/-- The alternating started/finished event sequence of a list of requests played to
completion in order. -/
def pairSeq : List String → List SFEvent
  | [] => []
  | id :: ids => SFEvent.startedFor id :: SFEvent.finishedFor id :: pairSeq ids

/-- Whether a call is the resource release of the given request. -/
def isClearOf (id : String) : ExtCall → Bool
  | ExtCall.clearResources i => i == id
  | _ => false

/-- Whether a call is a completion or failure report on the given request's result
callback. -/
def isReportOf (id : String) : ExtCall → Bool
  | ExtCall.setCompleted i => i == id
  | ExtCall.setFailed i _ => i == id
  | _ => false

/-- Whether a call hands the given request's audio to the engine and starts play. -/
def isPlayOf (id : String) : ExtCall → Bool
  | ExtCall.setSourceAndPlay i => i == id
  | _ => false

/-- How many times the given request's resources were released over a trace. -/
def clearCount (tr : List ExtCall) (id : String) : Nat :=
  tr.countP (isClearOf id)

/-- How many times the given request's result callback was invoked over a trace. -/
def reportCount (tr : List ExtCall) (id : String) : Nat :=
  tr.countP (isReportOf id)

/-- How many times play was started for the given request over a trace. -/
def playCount (tr : List ExtCall) (id : String) : Nat :=
  tr.countP (isPlayOf id)

/-- Modelled from the spec: the result of create, a fully initialized agent.  The
implementation of create and init is missing from the source tree; per the header
documentation, init adds the agent as an observer of the speech player and registers
it as a state provider with the context manager. -/
structure CreatedAgent where
  observerAddedToSpeechPlayer : Bool
  registeredAsStateProvider : Bool
  modelState : ModelState
deriving DecidableEq

/-- Modelled from the spec: create returns a new, fully initialized agent, or nothing
when a required collaborator handle is missing (header create documentation,
implementation missing).  Each argument records the presence of one collaborator. -/
def create (mediaPlayer messageSender focusManager contextManager attachmentManager exceptionSender : Bool) :
    Option CreatedAgent :=
  if mediaPlayer && messageSender && focusManager && contextManager
      && attachmentManager && exceptionSender then
    some { observerAddedToSpeechPlayer := true,
           registeredAsStateProvider := true,
           modelState := initialState }
  else none

/-- Concrete request used by the pre-admission witness. -/
def infoC5 : SpeakDirectiveInfo :=
  { messageId := "c5", token := some "T5", attachmentReader := some 5,
    hasResult := true, sendPlaybackFinishedMessage := true, sendCompletedMessage := true }

/-- Concrete request used by the admission witness. -/
def infoC6 : SpeakDirectiveInfo :=
  { messageId := "c6", token := some "T6", attachmentReader := some 6,
    hasResult := true, sendPlaybackFinishedMessage := true, sendCompletedMessage := true }

/-- Concrete pre-admitted state used by the admission witness. -/
def stC6 : ModelState :=
  { initialState with speakDirectiveInfoMap := [("c6", infoC6)] }

/-- Concrete requests used by the cancellation witness. -/
def infoC8a : SpeakDirectiveInfo :=
  { messageId := "c8a", token := some "T8a", attachmentReader := some 1,
    hasResult := true, sendPlaybackFinishedMessage := true, sendCompletedMessage := true }

/-- Second concrete request used by the cancellation witness. -/
def infoC8b : SpeakDirectiveInfo :=
  { messageId := "c8b", token := some "T8b", attachmentReader := some 2,
    hasResult := true, sendPlaybackFinishedMessage := true, sendCompletedMessage := true }

/-- Concrete state with two queued requests and no current request. -/
def stC8 : ModelState :=
  { initialState with speakInfoQueue := [infoC8a, infoC8b] }

/-- Concrete request used by the playback-error witness. -/
def infoC9 : SpeakDirectiveInfo :=
  { messageId := "c9", token := some "T9", attachmentReader := some 9,
    hasResult := true, sendPlaybackFinishedMessage := true, sendCompletedMessage := true }

/-- Concrete playing state used by the playback-error witness. -/
def stC9 : ModelState :=
  { initialState with
      speakInfoQueue := [infoC9],
      currentInfo := some infoC9,
      currentFocus := FocusState.foreground,
      playbackPhase := PlaybackPhase.started,
      currentState := SpeechSynthesizerState.playing }

/-- Concrete requests used by the focus-release counterexample. -/
def infoC7a : SpeakDirectiveInfo :=
  { messageId := "c7a", token := some "T7a", attachmentReader := some 1,
    hasResult := true, sendPlaybackFinishedMessage := true, sendCompletedMessage := true }

/-- Second concrete request used by the focus-release counterexample. -/
def infoC7b : SpeakDirectiveInfo :=
  { messageId := "c7b", token := some "T7b", attachmentReader := some 2,
    hasResult := true, sendPlaybackFinishedMessage := true, sendCompletedMessage := true }

/-- Admit two requests and start playing the first. -/
def opsC7 : List Op :=
  [Op.preHandle infoC7a, Op.handle "c7a", Op.preHandle infoC7b, Op.handle "c7b",
   Op.focusChanged FocusState.foreground]

/-- Invariant behind the amended C2: while a playback session is in progress or the
agent is confirmed PLAYING, either FOREGROUND focus is held or a stop is pending
(the desired state is FINISHED). -/
def PlayingFocusInv (s : ModelState) : Prop :=
  (s.playbackPhase ≠ PlaybackPhase.idle →
    s.currentFocus = FocusState.foreground ∨
    s.desiredState = SpeechSynthesizerState.finished)
  ∧ (s.currentState = SpeechSynthesizerState.playing →
    s.currentFocus = FocusState.foreground ∨
    s.desiredState = SpeechSynthesizerState.finished)

/-- Concrete request driving the C2 counterexample and witness. -/
def infoC2 : SpeakDirectiveInfo :=
  { messageId := "c2", token := some "T2", attachmentReader := some 2,
    hasResult := true, sendPlaybackFinishedMessage := true, sendCompletedMessage := true }

/-- Run that plays a request and then has focus revoked while it is still playing. -/
def opsC2bad : List Op :=
  [Op.preHandle infoC2, Op.handle "c2", Op.focusChanged FocusState.foreground,
   Op.playbackStarted, Op.focusChanged FocusState.noFocus]

/-- Run that admits one request and receives the started confirmation. -/
def opsC2good : List Op :=
  [Op.preHandle infoC2, Op.handle "c2", Op.focusChanged FocusState.foreground,
   Op.playbackStarted]

/-- Invariant behind C1: with no cancellation, error or shutdown, the playback queue
holds exactly the not-yet-finished admitted requests in admission order, and the
started/finished log is the alternating pairing of the finished prefix, possibly
followed by the started event of the request currently playing. -/
def FifoInv (s : ModelState) (log : List SFEvent) : Prop :=
  s.isShutdown = false ∧
  ∃ k, k ≤ s.admittedOrder.length ∧
    queueIds s.speakInfoQueue = s.admittedOrder.drop k ∧
    ((s.playbackPhase = PlaybackPhase.idle ∧ s.currentInfo = none ∧
        log = pairSeq (s.admittedOrder.take k))
     ∨ (s.playbackPhase = PlaybackPhase.playRequested ∧
        (∃ info rest, s.speakInfoQueue = info :: rest ∧ s.currentInfo = some info) ∧
        log = pairSeq (s.admittedOrder.take k))
     ∨ (s.playbackPhase = PlaybackPhase.started ∧
        ∃ info rest, s.speakInfoQueue = info :: rest ∧ s.currentInfo = some info ∧
          log = pairSeq (s.admittedOrder.take k) ++ [SFEvent.startedFor info.messageId]))

/-- Concrete request used by the FIFO witness. -/
def infoC1 : SpeakDirectiveInfo :=
  { messageId := "c1", token := some "T1", attachmentReader := some 1,
    hasResult := true, sendPlaybackFinishedMessage := true, sendCompletedMessage := true }

/-- Quiet conforming run playing one admitted request to completion. -/
def opsC1 : List Op :=
  [Op.preHandle infoC1, Op.handle "c1", Op.focusChanged FocusState.foreground,
   Op.playbackStarted, Op.playbackFinished]

/-- Master invariant behind C3 and C4, relating the trace of external calls to the
agent state after processing a prefix whose admission ids are contained in adm:
registry and queue ids are duplicate-free and tagged consistently, every request's
resources are released at most once and only after it has left registry and queue,
result-callback reports never outnumber releases, the current request is the queue
head, a request that was ever handed to the audio engine is either already released
or still current and unreleased, and an idle playback session has no current
request. -/
def OnceInv (adm : List String) (s : ModelState) (tr : List ExtCall) : Prop :=
  (mapIds s.speakDirectiveInfoMap ++ queueIds s.speakInfoQueue).Nodup
  ∧ (∀ e ∈ s.speakDirectiveInfoMap, e.2.messageId = e.1)
  ∧ (∀ id, clearCount tr id ≤ 1)
  ∧ (∀ id, 1 ≤ clearCount tr id →
      id ∉ mapIds s.speakDirectiveInfoMap ∧ id ∉ queueIds s.speakInfoQueue)
  ∧ (∀ info, s.currentInfo = some info → ∃ rest, s.speakInfoQueue = info :: rest)
  ∧ (∀ id, reportCount tr id ≤ clearCount tr id)
  ∧ (∀ id, id ∈ mapIds s.speakDirectiveInfoMap ++ queueIds s.speakInfoQueue → id ∈ adm)
  ∧ (∀ id, 1 ≤ clearCount tr id → id ∈ adm)
  ∧ (∀ id, 1 ≤ playCount tr id →
      clearCount tr id = 1 ∨
      (∃ info, s.currentInfo = some info ∧ info.messageId = id ∧ clearCount tr id = 0))
  ∧ (∀ info, s.currentInfo = some info →
      clearCount tr info.messageId = 0 ∧ 1 ≤ playCount tr info.messageId)
  ∧ (s.playbackPhase = PlaybackPhase.idle → s.currentInfo = none)

/-- Concrete request used by the released-once witness. -/
def infoC3 : SpeakDirectiveInfo :=
  { messageId := "c3", token := some "T3", attachmentReader := some 3,
    hasResult := true, sendPlaybackFinishedMessage := true, sendCompletedMessage := true }

/-- Full lifecycle run of one request used by the released-once witness. -/
def opsC3 : List Op :=
  [Op.preHandle infoC3, Op.handle "c3", Op.focusChanged FocusState.foreground,
   Op.playbackStarted, Op.playbackFinished]

/-- Concrete request used by the at-most-once-report witness. -/
def infoC4 : SpeakDirectiveInfo :=
  { messageId := "c4", token := some "T4", attachmentReader := some 4,
    hasResult := true, sendPlaybackFinishedMessage := true, sendCompletedMessage := true }

/-- Run in which a focus revoke races the finish of the playing request, used by the
at-most-once-report witness. -/
def opsC4 : List Op :=
  [Op.preHandle infoC4, Op.handle "c4", Op.focusChanged FocusState.foreground,
   Op.playbackStarted, Op.focusChanged FocusState.noFocus, Op.playbackFinished]

/-- A key is absent from the registry exactly when lookup fails. -/
lemma lookupId_none_iff (m : List (String × SpeakDirectiveInfo)) (id : String) :
    lookupId m id = none ↔ id ∉ mapIds m := by
  induction m with
  | nil => simp [lookupId, mapIds]
  | cons e rest ih =>
      obtain ⟨k, v⟩ := e
      by_cases hk : k = id
      · subst hk
        simp [lookupId, mapIds]
      · simp only [lookupId, if_neg hk, mapIds, List.map_cons, List.mem_cons, ih, not_or]
        constructor
        · intro h
          exact ⟨fun h1 => hk h1.symm, h⟩
        · intro h
          exact h.2

/-- A successful registry lookup returns a stored entry. -/
lemma lookupId_some_mem {m : List (String × SpeakDirectiveInfo)} {id : String}
    {v : SpeakDirectiveInfo} (h : lookupId m id = some v) : (id, v) ∈ m := by
  induction m with
  | nil => simp [lookupId] at h
  | cons e rest ih =>
      obtain ⟨k, w⟩ := e
      by_cases hk : k = id
      · subst hk
        simp [lookupId] at h
        subst h
        exact List.mem_cons_self _ _
      · simp only [lookupId, if_neg hk] at h
        exact List.mem_cons_of_mem _ (ih h)

/-- A successful registry lookup witnesses key membership. -/
lemma mem_mapIds_of_lookup {m : List (String × SpeakDirectiveInfo)} {id : String}
    {v : SpeakDirectiveInfo} (h : lookupId m id = some v) : id ∈ mapIds m := by
  have hm := lookupId_some_mem h
  exact List.mem_map_of_mem (fun e => e.1) hm

/-- Removing a present key from the registry permutes its key list by extracting
that key. -/
lemma mapIds_removeKey_perm {m : List (String × SpeakDirectiveInfo)} {id : String}
    {v : SpeakDirectiveInfo} (h : lookupId m id = some v) :
    List.Perm (mapIds m) (id :: mapIds (removeKey m id)) := by
  induction m with
  | nil => simp [lookupId] at h
  | cons e rest ih =>
      obtain ⟨k, w⟩ := e
      by_cases hk : k = id
      · subst hk
        simp [mapIds, removeKey]
      · simp only [lookupId, if_neg hk] at h
        simp only [mapIds, removeKey, if_neg hk, List.map_cons]
        exact ((ih h).cons k).trans (List.Perm.swap id k _)

/-- Entries surviving key removal were entries of the registry. -/
lemma removeKey_subset {m : List (String × SpeakDirectiveInfo)} {id : String} :
    ∀ e ∈ removeKey m id, e ∈ m := by
  induction m with
  | nil => intro e he; simp [removeKey] at he
  | cons f rest ih =>
      obtain ⟨k, w⟩ := f
      intro e he
      by_cases hk : k = id
      · subst hk
        simp only [removeKey, if_pos rfl] at he
        exact List.mem_cons_of_mem _ he
      · simp only [removeKey, if_neg hk] at he
        rcases List.mem_cons.mp he with h1 | h2
        · exact h1 ▸ List.mem_cons_self _ _
        · exact List.mem_cons_of_mem _ (ih e h2)

/-- The queue occupancy test decides membership of the id among queued requests. -/
lemma containsId_iff (q : List SpeakDirectiveInfo) (id : String) :
    containsId q id = true ↔ id ∈ queueIds q := by
  induction q with
  | nil => simp [containsId, queueIds]
  | cons r rest ih =>
      simp only [containsId, List.any_cons, Bool.or_eq_true, beq_iff_eq, queueIds,
        List.map_cons, List.mem_cons] at *
      constructor
      · rintro (h1 | h2)
        · exact Or.inl h1.symm
        · exact Or.inr (ih.mp h2)
      · rintro (h1 | h2)
        · exact Or.inl h1.symm
        · exact Or.inr (ih.mpr h2)

/-- Removing a present id from the queue permutes its id list by extracting that id. -/
lemma queueIds_removeById_perm {q : List SpeakDirectiveInfo} {id : String}
    (h : id ∈ queueIds q) :
    List.Perm (queueIds q) (id :: queueIds (removeById q id)) := by
  induction q with
  | nil => simp [queueIds] at h
  | cons r rest ih =>
      by_cases hr : r.messageId = id
      · simp [queueIds, removeById, hr]
      · simp only [queueIds, List.map_cons, List.mem_cons] at h
        rcases h with h1 | h2
        · exact absurd h1.symm hr
        · simp only [queueIds, removeById, if_neg hr, List.map_cons]
          exact ((ih h2).cons r.messageId).trans (List.Perm.swap id r.messageId _)

/-- Requests surviving queue removal were queued requests. -/
lemma removeById_subset {q : List SpeakDirectiveInfo} {id : String} :
    ∀ r ∈ removeById q id, r ∈ q := by
  induction q with
  | nil => intro r hr; simp [removeById] at hr
  | cons x rest ih =>
      intro r hr
      by_cases hx : x.messageId = id
      · simp only [removeById, if_pos hx] at hr
        exact List.mem_cons_of_mem _ hr
      · simp only [removeById, if_neg hx] at hr
        rcases List.mem_cons.mp hr with h1 | h2
        · exact h1 ▸ List.mem_cons_self _ _
        · exact List.mem_cons_of_mem _ (ih r h2)

/-- A request distinct from the cancelled id survives queue removal. -/
lemma mem_removeById_of_ne {q : List SpeakDirectiveInfo} {id : String}
    {r : SpeakDirectiveInfo} (hr : r ∈ q) (hne : r.messageId ≠ id) :
    r ∈ removeById q id := by
  induction q with
  | nil => simp at hr
  | cons x rest ih =>
      by_cases hx : x.messageId = id
      · simp only [removeById, if_pos hx]
        rcases List.mem_cons.mp hr with h1 | h2
        · exact absurd (h1 ▸ hx) hne
        · exact h2
      · simp only [removeById, if_neg hx]
        rcases List.mem_cons.mp hr with h1 | h2
        · exact h1 ▸ List.mem_cons_self _ _
        · exact List.mem_cons_of_mem _ (ih h2)

/-- Resource releases count additively over concatenated traces. -/
lemma clearCount_append (t1 t2 : List ExtCall) (id : String) :
    clearCount (t1 ++ t2) id = clearCount t1 id + clearCount t2 id :=
  List.countP_append _ _ _

/-- Result-callback reports count additively over concatenated traces. -/
lemma reportCount_append (t1 t2 : List ExtCall) (id : String) :
    reportCount (t1 ++ t2) id = reportCount t1 id + reportCount t2 id :=
  List.countP_append _ _ _

/-- Play starts count additively over concatenated traces. -/
lemma playCount_append (t1 t2 : List ExtCall) (id : String) :
    playCount (t1 ++ t2) id = playCount t1 id + playCount t2 id :=
  List.countP_append _ _ _

/-- Playing one more request to completion extends the alternating event sequence by
its started/finished pair. -/
lemma pairSeq_append_singleton (l : List String) (x : String) :
    pairSeq (l ++ [x]) = pairSeq l ++ [SFEvent.startedFor x, SFEvent.finishedFor x] := by
  induction l with
  | nil => simp [pairSeq]
  | cons y rest ih => simp [pairSeq, ih]

/-- When dropping k elements exposes a head, taking one more element appends exactly
that head, and one more drop removes it. -/
lemma take_succ_of_drop_cons :
    ∀ (a : List String) (k : Nat) (x : String) (t : List String),
      a.drop k = x :: t →
      a.take (k + 1) = a.take k ++ [x] ∧ a.drop (k + 1) = t ∧ k + 1 ≤ a.length := by
  intro a
  induction a with
  | nil => intro k x t h; simp at h
  | cons y rest ih =>
      intro k x t h
      cases k with
      | zero =>
          simp only [List.drop_zero] at h
          cases h
          simp
      | succ k =>
          simp only [List.drop_succ_cons] at h
          obtain ⟨h1, h2, h3⟩ := ih k x t h
          refine ⟨?_, ?_, ?_⟩
          · simp [List.take_succ_cons, h1]
          · simpa [List.drop_succ_cons] using h2
          · simpa using Nat.succ_le_succ h3

/-- Clearing a list of ids yields one release call per id. -/
lemma clearCount_map_clear (ids : List String) (id : String) :
    clearCount (ids.map ExtCall.clearResources) id = ids.countP (fun i => i == id) := by
  induction ids with
  | nil => simp [clearCount]
  | cons i rest ih =>
      simp [clearCount, List.countP_cons, isClearOf] at *
      omega

/-- An id absent from a list is never counted. -/
lemma countP_beq_eq_zero_of_not_mem {l : List String} {id : String} (h : id ∉ l) :
    l.countP (fun i => i == id) = 0 := by
  rw [List.countP_eq_zero]
  intro a ha
  simp only [beq_iff_eq]
  intro hc
  exact h (hc ▸ ha)

/-- In a duplicate-free list every id is counted at most once. -/
lemma countP_beq_le_one_of_nodup {l : List String} (h : l.Nodup) (id : String) :
    l.countP (fun i => i == id) ≤ 1 := by
  induction l with
  | nil => simp
  | cons a rest ih =>
      obtain ⟨ha, hrest⟩ := List.nodup_cons.mp h
      by_cases hid : a = id
      · subst hid
        rw [List.countP_cons, countP_beq_eq_zero_of_not_mem ha]
        simp
      · rw [List.countP_cons]
        have : (fun i => i == id) a = false := by
          simp [beq_iff_eq, hid]
        simp only [this]
        simpa using ih hrest

/-- A positively counted id is a member. -/
lemma mem_of_countP_beq_pos {l : List String} {id : String}
    (h : 1 ≤ l.countP (fun i => i == id)) : id ∈ l := by
  have hpos : 0 < l.countP (fun i => i == id) := by omega
  obtain ⟨a, ha, hp⟩ := List.countP_pos_iff.mp hpos
  simp only [beq_iff_eq] at hp
  exact hp ▸ ha

/-- C5: preAdmit fails, leaving the pending-request registry unchanged, exactly when
the key is already registered (duplicate) or a required field, the token or the audio
source, is missing (malformed); in the missing-field case an exception report is sent
to the protocol layer and no registry entry is created; otherwise the request is
registered under its key. -/
theorem preHandle_admission_spec (s : ModelState) (info : SpeakDirectiveInfo)
    (hs : s.isShutdown = false) :
    ((step s (Op.preHandle info)).1 = s ↔
      (lookupId s.speakDirectiveInfoMap info.messageId ≠ none ∨ missingProperty info ≠ none))
    ∧ (missingProperty info ≠ none →
        (∃ d, ExtCall.sendExceptionEncountered info.messageId d ∈ (step s (Op.preHandle info)).2)
        ∧ (step s (Op.preHandle info)).1.speakDirectiveInfoMap = s.speakDirectiveInfoMap)
    ∧ (lookupId s.speakDirectiveInfoMap info.messageId = none → missingProperty info = none →
        lookupId (step s (Op.preHandle info)).1.speakDirectiveInfoMap info.messageId
          = some info) := by
  have hstep : step s (Op.preHandle info) = executePreHandle s info := by
    simp [step, hs]
  rw [hstep]
  cases hm : missingProperty info with
  | some prop =>
      simp only [executePreHandle, hm]
      refine ⟨by simp, ?_, ?_⟩
      · intro _
        refine ⟨⟨"missing property " ++ prop, by simp⟩, ?_⟩
        trivial
      · intro _ hmm
        exact absurd hmm (by simp)
  | none =>
      cases hl : lookupId s.speakDirectiveInfoMap info.messageId with
      | some v =>
          simp only [executePreHandle, hm, hl]
          refine ⟨?_, ?_, ?_⟩
          · constructor
            · intro _
              exact Or.inl (by simp)
            · intro _
              trivial
          · intro hcon
            exact absurd rfl hcon
          · intro hnone _
            exact absurd hnone (by simp)
      | none =>
          simp only [executePreHandle, hm, hl]
          refine ⟨?_, ?_, ?_⟩
          · constructor
            · intro heq
              exfalso
              have hlen := congrArg (fun t => t.speakDirectiveInfoMap.length) heq
              simp at hlen
            · rintro (h1 | h2)
              · exact absurd rfl h1
              · exact absurd rfl h2
          · intro hcon
            exact absurd rfl hcon
          · intro _ _
            simp [lookupId]

/-- Witness: pre-admitting a well-formed request into the fresh agent registers it. -/
theorem preHandle_admission_spec_witness :
    initialState.isShutdown = false ∧
    lookupId (step initialState (Op.preHandle infoC5)).1.speakDirectiveInfoMap
      infoC5.messageId = some infoC5 :=
  ⟨rfl, (preHandle_admission_spec initialState infoC5 rfl).2.2 rfl rfl⟩

/-- C6: admit fails with UnknownKey and changes no state when the key is absent from
the pending-request registry; when present, admit removes the registry entry, appends
the request to the playback queue, and requests FOREGROUND focus if and only if the
queue was empty immediately before the push. -/
theorem handle_admission_spec (s : ModelState) (messageId : String)
    (hs : s.isShutdown = false) :
    (lookupId s.speakDirectiveInfoMap messageId = none → (step s (Op.handle messageId)).1 = s)
    ∧ (∀ info, lookupId s.speakDirectiveInfoMap messageId = some info →
        (step s (Op.handle messageId)).1.speakDirectiveInfoMap
            = removeKey s.speakDirectiveInfoMap messageId
        ∧ (step s (Op.handle messageId)).1.speakInfoQueue = s.speakInfoQueue ++ [info]
        ∧ (ExtCall.acquireChannel ∈ (step s (Op.handle messageId)).2 ↔
            s.speakInfoQueue = [])) := by
  have hstep : step s (Op.handle messageId) = executeHandle s messageId := by
    simp [step, hs]
  rw [hstep]
  constructor
  · intro hl
    simp [executeHandle, hl]
  · intro info hl
    simp only [executeHandle, hl, addToDirectiveQueue]
    refine ⟨?_, ?_, ?_⟩
    · trivial
    · trivial
    · cases hq : s.speakInfoQueue with
      | nil => simp
      | cons r rest => simp

/-- Witness: admitting the only pre-admitted request enqueues it and acquires focus. -/
theorem handle_admission_spec_witness :
    stC6.isShutdown = false ∧
    (step stC6 (Op.handle "c6")).1.speakInfoQueue = stC6.speakInfoQueue ++ [infoC6] ∧
    (ExtCall.acquireChannel ∈ (step stC6 (Op.handle "c6")).2 ↔ stC6.speakInfoQueue = []) := by
  have h := (handle_admission_spec stC6 "c6" rfl).2 infoC6 (by decide)
  exact ⟨rfl, h.2.1, h.2.2⟩

/-- C8: cancelling a request that is queued but not current removes it from the queue
and releases its resources while issuing zero audio-engine calls, zero focus-arbiter
calls and zero protocol events (the only call is the resource release); the other
queue entries (in order), the current request, the registry and the agent's state
fields are unchanged. -/
theorem cancel_queued_noncurrent_frame (s : ModelState) (messageId : String)
    (hs : s.isShutdown = false)
    (hq : containsId s.speakInfoQueue messageId = true)
    (hcur : ∀ info, s.currentInfo = some info → info.messageId ≠ messageId) :
    (step s (Op.cancel messageId)).2 = [ExtCall.clearResources messageId]
    ∧ (step s (Op.cancel messageId)).1.speakInfoQueue = removeById s.speakInfoQueue messageId
    ∧ (∀ r ∈ s.speakInfoQueue, r.messageId ≠ messageId →
        r ∈ (step s (Op.cancel messageId)).1.speakInfoQueue)
    ∧ (step s (Op.cancel messageId)).1.currentInfo = s.currentInfo
    ∧ (step s (Op.cancel messageId)).1.speakDirectiveInfoMap = s.speakDirectiveInfoMap
    ∧ (step s (Op.cancel messageId)).1.currentState = s.currentState
    ∧ (step s (Op.cancel messageId)).1.currentFocus = s.currentFocus := by
  have hstep : step s (Op.cancel messageId) = executeCancelNonCurrent s messageId := by
    cases hc : s.currentInfo with
    | none => simp [step, hs, executeCancel, hc]
    | some info =>
        have hne := hcur info hc
        simp [step, hs, executeCancel, hc, hne]
  rw [hstep]
  simp only [executeCancelNonCurrent, hq, if_true]
  refine ⟨?_, ?_, ?_, ?_, ?_, ?_, ?_⟩ <;>
    first
      | (intro r hr hne
         exact mem_removeById_of_ne hr hne)
      | trivial

/-- Witness: cancelling the queued non-current second request only clears it. -/
theorem cancel_queued_noncurrent_frame_witness :
    stC8.isShutdown = false ∧ containsId stC8.speakInfoQueue "c8b" = true ∧
    ((step stC8 (Op.cancel "c8b")).2 = [ExtCall.clearResources "c8b"]
     ∧ (step stC8 (Op.cancel "c8b")).1.speakInfoQueue
        = removeById stC8.speakInfoQueue "c8b") := by
  have h := cancel_queued_noncurrent_frame stC8 "c8b" rfl (by decide)
    (by intro info hinfo; cases hinfo)
  exact ⟨rfl, by decide, h.1, h.2.1⟩

/-- C9: a playback error for the current request reports failure via the request's
result callback when present and otherwise sends an exception report, releases the
current request's resources, pops it from the queue, and releases held focus without
starting the next queued request. -/
theorem playback_error_aborts_session (s : ModelState) (description : String)
    (info : SpeakDirectiveInfo)
    (hs : s.isShutdown = false) (hcur : s.currentInfo = some info) :
    (info.hasResult = true →
        ExtCall.setFailed info.messageId description ∈ (step s (Op.playbackError description)).2)
    ∧ (info.hasResult = false →
        ExtCall.sendExceptionEncountered info.messageId description
          ∈ (step s (Op.playbackError description)).2)
    ∧ ExtCall.clearResources info.messageId ∈ (step s (Op.playbackError description)).2
    ∧ (step s (Op.playbackError description)).1.currentInfo = none
    ∧ (step s (Op.playbackError description)).1.speakInfoQueue = s.speakInfoQueue.tail
    ∧ (s.currentFocus = FocusState.foreground →
        ExtCall.releaseChannel ∈ (step s (Op.playbackError description)).2)
    ∧ (∀ id, ExtCall.setSourceAndPlay id ∉ (step s (Op.playbackError description)).2) := by
  have hstep : step s (Op.playbackError description) = executePlaybackError s description := by
    simp [step, hs]
  rw [hstep]
  simp only [executePlaybackError, hcur]
  cases hres : info.hasResult <;> cases hfg : s.currentFocus <;>
    simp [releaseForegroundFocus, hfg, hres]

/-- Witness: a playback error while playing clears the current request and drops it. -/
theorem playback_error_aborts_session_witness :
    stC9.isShutdown = false ∧ stC9.currentInfo = some infoC9 ∧
    (ExtCall.clearResources infoC9.messageId ∈ (step stC9 (Op.playbackError "boom")).2
     ∧ (step stC9 (Op.playbackError "boom")).1.currentInfo = none) := by
  have h := playback_error_aborts_session stC9 "boom" infoC9 rfl rfl
  exact ⟨rfl, rfl, h.2.2.1, h.2.2.2.1⟩

/-- C10: create returns either a fully initialized agent, added as an observer of the
speech player and registered as a state provider with the context manager and holding
the freshly constructed state, or nothing when a required collaborator handle is
missing; a partially initialized agent is never returned. -/
theorem create_fully_initialized_or_none
    (mediaPlayer messageSender focusManager contextManager attachmentManager exceptionSender : Bool) :
    (create mediaPlayer messageSender focusManager contextManager attachmentManager
        exceptionSender = none ↔
      ¬(mediaPlayer = true ∧ messageSender = true ∧ focusManager = true ∧
        contextManager = true ∧ attachmentManager = true ∧ exceptionSender = true))
    ∧ (∀ agent,
        create mediaPlayer messageSender focusManager contextManager attachmentManager
          exceptionSender = some agent →
        agent.observerAddedToSpeechPlayer = true ∧ agent.registeredAsStateProvider = true
        ∧ agent.modelState = initialState) := by
  by_cases h : (mediaPlayer && messageSender && focusManager && contextManager
      && attachmentManager && exceptionSender) = true
  · have hall := h
    simp only [Bool.and_eq_true] at hall
    obtain ⟨⟨⟨⟨⟨h1, h2⟩, h3⟩, h4⟩, h5⟩, h6⟩ := hall
    constructor
    · simp [create, h, h1, h2, h3, h4, h5, h6]
    · intro agent hag
      simp only [create, h, if_true] at hag
      cases hag
      exact ⟨rfl, rfl, rfl⟩
  · have hnall : ¬(mediaPlayer = true ∧ messageSender = true ∧ focusManager = true ∧
        contextManager = true ∧ attachmentManager = true ∧ exceptionSender = true) := by
      intro hall
      exact h (by simp [Bool.and_eq_true, hall.1, hall.2.1, hall.2.2.1, hall.2.2.2.1,
        hall.2.2.2.2.1, hall.2.2.2.2.2])
    constructor
    · simp [create, h, hnall]
    · intro agent hag
      simp [create, h] at hag

/-- Counterexample to C7: in the engine-conforming execution that admits two requests,
starts playing the first and then receives a playback error, the agent issues a focus
release while the playback queue is still non-empty (the second request is queued). -/
theorem focus_release_nonempty_queue_counterexample :
    engineConforming initialState (opsC7 ++ [Op.playbackError "boom"]) = true
    ∧ (run initialState opsC7).1.speakInfoQueue ≠ []
    ∧ ExtCall.releaseChannel ∈ (step (run initialState opsC7).1 (Op.playbackError "boom")).2
    ∧ (step (run initialState opsC7).1 (Op.playbackError "boom")).1.speakInfoQueue ≠ [] := by
  decide

/-- C7 (amended): a focus release is issued exactly on a playback-finished callback
for a current request that empties the queue, on a playback error for a current
request (even when further requests remain queued), or on shutdown, and in each case
only when FOREGROUND focus is held; admission, cancellation, focus-change handling
and state queries never release focus. -/
theorem focus_release_characterization (s : ModelState) (op : Op) :
    ExtCall.releaseChannel ∈ (step s op).2 ↔
      (s.isShutdown = false ∧ s.currentFocus = FocusState.foreground ∧
        ((op = Op.playbackFinished ∧ s.currentInfo ≠ none ∧ s.speakInfoQueue.tail = [])
         ∨ (∃ d, op = Op.playbackError d ∧ s.currentInfo ≠ none)
         ∨ op = Op.shutdown)) := by
  by_cases hs : s.isShutdown = true
  · simp [step, hs]
  · have hs' : s.isShutdown = false := by
      cases hb : s.isShutdown
      · rfl
      · exact absurd hb hs
    cases op with
    | preHandle info =>
        cases hm : missingProperty info with
        | some prop =>
            cases hres : info.hasResult <;>
              simp [step, hs', executePreHandle, hm, hres]
        | none =>
            cases hl : lookupId s.speakDirectiveInfoMap info.messageId with
            | some v => simp [step, hs', executePreHandle, hm, hl]
            | none => simp [step, hs', executePreHandle, hm, hl]
    | handle messageId =>
        cases hl : lookupId s.speakDirectiveInfoMap messageId with
        | some v =>
            cases hq : s.speakInfoQueue <;>
              simp [step, hs', executeHandle, hl, addToDirectiveQueue, hq]
        | none => simp [step, hs', executeHandle, hl]
    | handleImmediately info =>
        cases hm : missingProperty { info with hasResult := false, sendCompletedMessage := false } with
        | some prop =>
            simp [step, hs', executeHandleImmediately, hm]
        | none =>
            cases hq : s.speakInfoQueue <;>
              simp [step, hs', executeHandleImmediately, hm, addToDirectiveQueue, hq]
    | cancel messageId =>
        have hnc : ExtCall.releaseChannel ∉ (executeCancelNonCurrent s messageId).2 := by
          by_cases hcq : containsId s.speakInfoQueue messageId = true
          · simp [executeCancelNonCurrent, hcq]
          · cases hl : lookupId s.speakDirectiveInfoMap messageId with
            | some v => simp [executeCancelNonCurrent, hcq, hl]
            | none => simp [executeCancelNonCurrent, hcq, hl]
        cases hc : s.currentInfo with
        | none => simp [step, hs', executeCancel, hc, hnc]
        | some info =>
            by_cases hid : info.messageId = messageId
            · simp [step, hs', executeCancel, hc, hid]
            · simp [step, hs', executeCancel, hc, hid, hnc]
    | focusChanged newFocus =>
        cases newFocus with
        | foreground =>
            by_cases hp : s.playbackPhase = PlaybackPhase.idle
            · cases hq : s.speakInfoQueue with
              | nil =>
                  simp [step, hs', executeOnFocusChanged, executeStateChange,
                    setDesiredState, startPlaying, hp, hq]
              | cons r rest =>
                  simp [step, hs', executeOnFocusChanged, executeStateChange,
                    setDesiredState, startPlaying, hp, hq]
            · simp [step, hs', executeOnFocusChanged, executeStateChange,
                setDesiredState, hp]
        | background =>
            by_cases hcs : s.currentState = SpeechSynthesizerState.playing
            · simp [step, hs', executeOnFocusChanged, executeStateChange, setDesiredState, hcs]
            · simp [step, hs', executeOnFocusChanged, executeStateChange, setDesiredState, hcs]
        | noFocus =>
            by_cases hcs : s.currentState = SpeechSynthesizerState.playing
            · simp [step, hs', executeOnFocusChanged, executeStateChange, setDesiredState, hcs]
            · simp [step, hs', executeOnFocusChanged, executeStateChange, setDesiredState, hcs]
    | playbackStarted =>
        cases hc : s.currentInfo with
        | none => simp [step, hs', executePlaybackStarted, hc]
        | some info => simp [step, hs', executePlaybackStarted, hc]
    | playbackFinished =>
        cases hc : s.currentInfo with
        | none => simp [step, hs', executePlaybackFinished, hc]
        | some info =>
            cases ht : s.speakInfoQueue.tail with
            | nil =>
                cases hfg : s.currentFocus <;>
                  simp [step, hs', executePlaybackFinished, hc, ht,
                    releaseForegroundFocus, hfg]
            | cons r2 rest2 =>
                simp [step, hs', executePlaybackFinished, hc, ht, startPlaying]
    | playbackError description =>
        cases hc : s.currentInfo with
        | none => simp [step, hs', executePlaybackError, hc]
        | some info =>
            cases hfg : s.currentFocus <;>
              cases hres : info.hasResult <;>
                simp [step, hs', executePlaybackError, hc, releaseForegroundFocus, hfg, hres]
    | provideState t => simp [step, hs', executeProvideState]
    | shutdown =>
        cases hfg : s.currentFocus <;>
          simp [step, hs', doShutdown, hfg]

/-- An invariant preserved by every engine-conforming step holds after every
conforming run. -/
lemma conforming_run_inv (P : ModelState → Prop)
    (hstep : ∀ s op, P s → allowedOp s op = true → P (step s op).1) :
    ∀ (ops : List Op) (s : ModelState), P s → engineConforming s ops = true →
      P (run s ops).1 := by
  intro ops
  induction ops with
  | nil =>
      intro s hP _
      simpa [run] using hP
  | cons op rest ih =>
      intro s hP hconf
      simp only [engineConforming, Bool.and_eq_true] at hconf
      obtain ⟨hallow, hrest⟩ := hconf
      simpa [run] using ih (step s op).1 (hstep s op hP hallow) hrest

/-- The playing-focus invariant is preserved by every engine-conforming step. -/
lemma playingFocusInv_step (s : ModelState) (op : Op)
    (h : PlayingFocusInv s) (hallow : allowedOp s op = true) :
    PlayingFocusInv (step s op).1 := by
  by_cases hsb : s.isShutdown = true
  · have : (step s op).1 = s := by simp [step, hsb]
    rw [this]
    exact h
  · have hs' : s.isShutdown = false := by
      cases hb : s.isShutdown
      · rfl
      · exact absurd hb hsb
    cases op with
    | preHandle info =>
        cases hm : missingProperty info with
        | some prop =>
            have heq : (step s (Op.preHandle info)).1 = s := by
              simp [step, hs', executePreHandle, hm]
            rw [heq]
            exact h
        | none =>
            cases hl : lookupId s.speakDirectiveInfoMap info.messageId with
            | some v =>
                have heq : (step s (Op.preHandle info)).1 = s := by
                  simp [step, hs', executePreHandle, hm, hl]
                rw [heq]
                exact h
            | none =>
                have heq : (step s (Op.preHandle info)).1
                    = { s with speakDirectiveInfoMap :=
                          (info.messageId, info) :: s.speakDirectiveInfoMap } := by
                  simp [step, hs', executePreHandle, hm, hl]
                rw [heq]
                exact h
    | handle messageId =>
        cases hl : lookupId s.speakDirectiveInfoMap messageId with
        | none =>
            have heq : (step s (Op.handle messageId)).1 = s := by
              simp [step, hs', executeHandle, hl]
            rw [heq]
            exact h
        | some info =>
            have heq : (step s (Op.handle messageId)).1
                = { s with
                    speakDirectiveInfoMap := removeKey s.speakDirectiveInfoMap messageId,
                    speakInfoQueue := s.speakInfoQueue ++ [info],
                    admittedOrder := s.admittedOrder ++ [info.messageId] } := by
              simp [step, hs', executeHandle, hl, addToDirectiveQueue]
            rw [heq]
            exact h
    | handleImmediately info =>
        cases hm : missingProperty { info with hasResult := false, sendCompletedMessage := false } with
        | some prop =>
            have heq : (step s (Op.handleImmediately info)).1 = s := by
              simp [step, hs', executeHandleImmediately, hm]
            rw [heq]
            exact h
        | none =>
            have heq : (step s (Op.handleImmediately info)).1
                = { s with
                    speakInfoQueue := s.speakInfoQueue
                      ++ [{ info with hasResult := false, sendCompletedMessage := false }],
                    admittedOrder := s.admittedOrder ++ [info.messageId] } := by
              simp [step, hs', executeHandleImmediately, hm, addToDirectiveQueue]
            rw [heq]
            exact h
    | cancel messageId =>
        have hnc : PlayingFocusInv (executeCancelNonCurrent s messageId).1 := by
          by_cases hcq : containsId s.speakInfoQueue messageId = true
          · have heq : (executeCancelNonCurrent s messageId).1
                = { s with speakInfoQueue := removeById s.speakInfoQueue messageId } := by
              simp [executeCancelNonCurrent, hcq]
            rw [heq]
            exact h
          · cases hl : lookupId s.speakDirectiveInfoMap messageId with
            | some v =>
                have heq : (executeCancelNonCurrent s messageId).1
                    = { s with speakDirectiveInfoMap :=
                          removeKey s.speakDirectiveInfoMap messageId } := by
                  simp [executeCancelNonCurrent, hcq, hl]
                rw [heq]
                exact h
            | none =>
                have heq : (executeCancelNonCurrent s messageId).1 = s := by
                  simp [executeCancelNonCurrent, hcq, hl]
                rw [heq]
                exact h
        cases hc : s.currentInfo with
        | none =>
            have heq : (step s (Op.cancel messageId)).1 = (executeCancelNonCurrent s messageId).1 := by
              simp [step, hs', executeCancel, hc]
            rw [heq]
            exact hnc
        | some info =>
            by_cases hid : info.messageId = messageId
            · have heq : (step s (Op.cancel messageId)).1 = s := by
                simp [step, hs', executeCancel, hc, hid]
              rw [heq]
              exact h
            · have heq : (step s (Op.cancel messageId)).1
                  = (executeCancelNonCurrent s messageId).1 := by
                simp [step, hs', executeCancel, hc, hid]
              rw [heq]
              exact hnc
    | focusChanged newFocus =>
        cases newFocus with
        | foreground =>
            by_cases hp : s.playbackPhase = PlaybackPhase.idle
            · cases hq : s.speakInfoQueue with
              | nil =>
                  have heq : (step s (Op.focusChanged FocusState.foreground)).1
                      = { s with
                            currentFocus := FocusState.foreground,
                            desiredState := SpeechSynthesizerState.playing } := by
                    simp [step, hs', executeOnFocusChanged, executeStateChange,
                      setDesiredState, startPlaying, hp, hq]
                  rw [heq]
                  exact ⟨fun _ => Or.inl rfl, fun _ => Or.inl rfl⟩
              | cons r rest =>
                  have heq : (step s (Op.focusChanged FocusState.foreground)).1
                      = { s with
                            currentFocus := FocusState.foreground,
                            desiredState := SpeechSynthesizerState.playing,
                            currentInfo := some r,
                            playbackPhase := PlaybackPhase.playRequested } := by
                    simp [step, hs', executeOnFocusChanged, executeStateChange,
                      setDesiredState, startPlaying, hp, hq]
                  rw [heq]
                  exact ⟨fun _ => Or.inl rfl, fun _ => Or.inl rfl⟩
            · have heq : (step s (Op.focusChanged FocusState.foreground)).1
                  = { s with
                        currentFocus := FocusState.foreground,
                        desiredState := SpeechSynthesizerState.playing } := by
                simp [step, hs', executeOnFocusChanged, executeStateChange,
                  setDesiredState, hp]
              rw [heq]
              exact ⟨fun _ => Or.inl rfl, fun _ => Or.inl rfl⟩
        | background =>
            have heq : (step s (Op.focusChanged FocusState.background)).1
                = { s with
                      currentFocus := FocusState.background,
                      desiredState := SpeechSynthesizerState.finished } := by
              by_cases hcs : s.currentState = SpeechSynthesizerState.playing
              · simp [step, hs', executeOnFocusChanged, executeStateChange,
                  setDesiredState, hcs]
              · simp [step, hs', executeOnFocusChanged, executeStateChange,
                  setDesiredState, hcs]
            rw [heq]
            exact ⟨fun _ => Or.inr rfl, fun _ => Or.inr rfl⟩
        | noFocus =>
            have heq : (step s (Op.focusChanged FocusState.noFocus)).1
                = { s with
                      currentFocus := FocusState.noFocus,
                      desiredState := SpeechSynthesizerState.finished } := by
              by_cases hcs : s.currentState = SpeechSynthesizerState.playing
              · simp [step, hs', executeOnFocusChanged, executeStateChange,
                  setDesiredState, hcs]
              · simp [step, hs', executeOnFocusChanged, executeStateChange,
                  setDesiredState, hcs]
            rw [heq]
            exact ⟨fun _ => Or.inr rfl, fun _ => Or.inr rfl⟩
    | playbackStarted =>
        have hphase : s.playbackPhase = PlaybackPhase.playRequested := by
          simpa [allowedOp] using hallow
        cases hc : s.currentInfo with
        | none =>
            have heq : (step s Op.playbackStarted).1 = s := by
              simp [step, hs', executePlaybackStarted, hc]
            rw [heq]
            exact h
        | some info =>
            have heq : (step s Op.playbackStarted).1
                = { s with
                      currentState := SpeechSynthesizerState.playing,
                      playbackPhase := PlaybackPhase.started } := by
              simp [step, hs', executePlaybackStarted, hc]
            rw [heq]
            refine ⟨fun _ => ?_, fun _ => ?_⟩
            · exact h.1 (by simp [hphase])
            · exact h.1 (by simp [hphase])
    | playbackFinished =>
        have hphase : s.playbackPhase = PlaybackPhase.started := by
          simpa [allowedOp] using hallow
        cases hc : s.currentInfo with
        | none =>
            have heq : (step s Op.playbackFinished).1 = s := by
              simp [step, hs', executePlaybackFinished, hc]
            rw [heq]
            exact h
        | some info =>
            cases ht : s.speakInfoQueue.tail with
            | nil =>
                cases hfg : s.currentFocus with
                | foreground =>
                    have heq : (step s Op.playbackFinished).1
                        = { s with
                              currentState := SpeechSynthesizerState.finished,
                              speakInfoQueue := [],
                              currentInfo := none,
                              playbackPhase := PlaybackPhase.idle,
                              currentFocus := FocusState.noFocus } := by
                      simp [step, hs', executePlaybackFinished, hc, ht,
                        releaseForegroundFocus, hfg]
                    rw [heq]
                    exact ⟨fun hcon => absurd rfl hcon, fun hcon => by cases hcon⟩
                | background =>
                    have heq : (step s Op.playbackFinished).1
                        = { s with
                              currentState := SpeechSynthesizerState.finished,
                              speakInfoQueue := [],
                              currentInfo := none,
                              playbackPhase := PlaybackPhase.idle } := by
                      simp [step, hs', executePlaybackFinished, hc, ht,
                        releaseForegroundFocus, hfg]
                    rw [heq]
                    exact ⟨fun hcon => absurd rfl hcon, fun hcon => by cases hcon⟩
                | noFocus =>
                    have heq : (step s Op.playbackFinished).1
                        = { s with
                              currentState := SpeechSynthesizerState.finished,
                              speakInfoQueue := [],
                              currentInfo := none,
                              playbackPhase := PlaybackPhase.idle } := by
                      simp [step, hs', executePlaybackFinished, hc, ht,
                        releaseForegroundFocus, hfg]
                    rw [heq]
                    exact ⟨fun hcon => absurd rfl hcon, fun hcon => by cases hcon⟩
            | cons r2 rest2 =>
                have heq : (step s Op.playbackFinished).1
                    = { s with
                          currentState := SpeechSynthesizerState.finished,
                          speakInfoQueue := r2 :: rest2,
                          currentInfo := some r2,
                          playbackPhase := PlaybackPhase.playRequested } := by
                  simp [step, hs', executePlaybackFinished, hc, ht, startPlaying]
                rw [heq]
                refine ⟨fun _ => ?_, fun hcon => by cases hcon⟩
                exact h.1 (by simp [hphase])
    | playbackError description =>
        cases hc : s.currentInfo with
        | none =>
            have heq : (step s (Op.playbackError description)).1 = s := by
              simp [step, hs', executePlaybackError, hc]
            rw [heq]
            exact h
        | some info =>
            cases hfg : s.currentFocus with
            | foreground =>
                have heq : (step s (Op.playbackError description)).1
                    = { s with
                          currentState := SpeechSynthesizerState.finished,
                          desiredState := SpeechSynthesizerState.finished,
                          speakInfoQueue := s.speakInfoQueue.tail,
                          currentInfo := none,
                          playbackPhase := PlaybackPhase.idle,
                          currentFocus := FocusState.noFocus } := by
                  simp [step, hs', executePlaybackError, hc, releaseForegroundFocus, hfg]
                rw [heq]
                exact ⟨fun _ => Or.inr rfl, fun _ => Or.inr rfl⟩
            | background =>
                have heq : (step s (Op.playbackError description)).1
                    = { s with
                          currentState := SpeechSynthesizerState.finished,
                          desiredState := SpeechSynthesizerState.finished,
                          speakInfoQueue := s.speakInfoQueue.tail,
                          currentInfo := none,
                          playbackPhase := PlaybackPhase.idle } := by
                  simp [step, hs', executePlaybackError, hc, releaseForegroundFocus, hfg]
                rw [heq]
                exact ⟨fun _ => Or.inr rfl, fun _ => Or.inr rfl⟩
            | noFocus =>
                have heq : (step s (Op.playbackError description)).1
                    = { s with
                          currentState := SpeechSynthesizerState.finished,
                          desiredState := SpeechSynthesizerState.finished,
                          speakInfoQueue := s.speakInfoQueue.tail,
                          currentInfo := none,
                          playbackPhase := PlaybackPhase.idle } := by
                  simp [step, hs', executePlaybackError, hc, releaseForegroundFocus, hfg]
                rw [heq]
                exact ⟨fun _ => Or.inr rfl, fun _ => Or.inr rfl⟩
    | provideState t =>
        have heq : (step s (Op.provideState t)).1 = s := by
          simp [step, hs', executeProvideState]
        rw [heq]
        exact h
    | shutdown =>
        have heq : (step s Op.shutdown).1
            = { speakDirectiveInfoMap := [],
                speakInfoQueue := [],
                currentState := SpeechSynthesizerState.finished,
                desiredState := SpeechSynthesizerState.finished,
                currentFocus := FocusState.noFocus,
                currentInfo := none,
                isShutdown := true,
                playbackPhase := PlaybackPhase.idle,
                admittedOrder := s.admittedOrder } := by
          simp [step, hs', doShutdown]
        rw [heq]
        exact ⟨fun _ => Or.inr rfl, fun _ => Or.inr rfl⟩

/-- Counterexample to C2: in an engine-conforming execution a focus revoke arrives
while the agent is confirmed PLAYING; the stop has been issued but the PLAYING state
persists until the engine confirms, so the agent is PLAYING with focus NONE. -/
theorem playing_implies_foreground_counterexample :
    engineConforming initialState opsC2bad = true
    ∧ (run initialState opsC2bad).1.currentState = SpeechSynthesizerState.playing
    ∧ (run initialState opsC2bad).1.currentFocus ≠ FocusState.foreground := by
  decide

/-- C2 (amended): in every engine-conforming reachable state, currentState PLAYING
implies that FOREGROUND focus is held or that a stop is pending because focus was
lost (desired state FINISHED, awaiting the engine's confirmation). -/
theorem playing_implies_foreground_or_stopping (ops : List Op)
    (hconf : engineConforming initialState ops = true) :
    (run initialState ops).1.currentState = SpeechSynthesizerState.playing →
      (run initialState ops).1.currentFocus = FocusState.foreground ∨
      (run initialState ops).1.desiredState = SpeechSynthesizerState.finished := by
  have hinv := conforming_run_inv PlayingFocusInv playingFocusInv_step ops initialState
    ⟨fun _ => Or.inr rfl, fun _ => Or.inr rfl⟩ hconf
  exact hinv.2

/-- Witness for the amended C2 on a concrete conforming run that ends PLAYING. -/
theorem playing_implies_foreground_or_stopping_witness :
    engineConforming initialState opsC2good = true
    ∧ ((run initialState opsC2good).1.currentState = SpeechSynthesizerState.playing →
        (run initialState opsC2good).1.currentFocus = FocusState.foreground ∨
        (run initialState opsC2good).1.desiredState = SpeechSynthesizerState.finished) :=
  ⟨by decide, playing_implies_foreground_or_stopping opsC2good (by decide)⟩

/-- Ids of an appended queue. -/
lemma queueIds_append (q1 q2 : List SpeakDirectiveInfo) :
    queueIds (q1 ++ q2) = queueIds q1 ++ queueIds q2 := by
  simp [queueIds]

/-- The FIFO invariant is preserved by every quiet, engine-conforming step. -/
lemma fifoInv_step (s : ModelState) (op : Op) (log : List SFEvent)
    (h : FifoInv s log) (hquiet : isQuietOp op = true) (hallow : allowedOp s op = true) :
    FifoInv (step s op).1 (log ++ stepSF s op) := by
  obtain ⟨hs', k, hk, hqids, hcase⟩ := h
  cases op with
  | cancel messageId => simp [isQuietOp] at hquiet
  | playbackError description => simp [isQuietOp] at hquiet
  | shutdown => simp [isQuietOp] at hquiet
  | preHandle info =>
      have hsf : stepSF s (Op.preHandle info) = [] := by simp [stepSF, hs']
      rw [hsf, List.append_nil]
      cases hm : missingProperty info with
      | some prop =>
          have heq : (step s (Op.preHandle info)).1 = s := by
            simp [step, hs', executePreHandle, hm]
          rw [heq]
          exact ⟨hs', k, hk, hqids, hcase⟩
      | none =>
          cases hl : lookupId s.speakDirectiveInfoMap info.messageId with
          | some v =>
              have heq : (step s (Op.preHandle info)).1 = s := by
                simp [step, hs', executePreHandle, hm, hl]
              rw [heq]
              exact ⟨hs', k, hk, hqids, hcase⟩
          | none =>
              have heq : (step s (Op.preHandle info)).1
                  = { s with speakDirectiveInfoMap :=
                        (info.messageId, info) :: s.speakDirectiveInfoMap } := by
                simp [step, hs', executePreHandle, hm, hl]
              rw [heq]
              exact ⟨hs', k, hk, hqids, hcase⟩
  | handle messageId =>
      have hsf : stepSF s (Op.handle messageId) = [] := by simp [stepSF, hs']
      rw [hsf, List.append_nil]
      cases hl : lookupId s.speakDirectiveInfoMap messageId with
      | none =>
          have heq : (step s (Op.handle messageId)).1 = s := by
            simp [step, hs', executeHandle, hl]
          rw [heq]
          exact ⟨hs', k, hk, hqids, hcase⟩
      | some info =>
          have heq : (step s (Op.handle messageId)).1
              = { s with
                  speakDirectiveInfoMap := removeKey s.speakDirectiveInfoMap messageId,
                  speakInfoQueue := s.speakInfoQueue ++ [info],
                  admittedOrder := s.admittedOrder ++ [info.messageId] } := by
            simp [step, hs', executeHandle, hl, addToDirectiveQueue]
          rw [heq]
          refine ⟨hs', k, ?_, ?_, ?_⟩
          · simp only [List.length_append, List.length_cons, List.length_nil]
            omega
          · rw [queueIds_append, List.drop_append_of_le_length hk, hqids]
            simp [queueIds]
          · rw [List.take_append_of_le_length hk]
            rcases hcase with ⟨h1, h2, h3⟩ | ⟨h1, ⟨info0, rest0, hq0, hc0⟩, h3⟩ |
              ⟨h1, info0, rest0, hq0, hc0, h3⟩
            · exact Or.inl ⟨h1, h2, h3⟩
            · exact Or.inr (Or.inl ⟨h1, ⟨info0, rest0 ++ [info], by simp [hq0], hc0⟩, h3⟩)
            · exact Or.inr (Or.inr ⟨h1, info0, rest0 ++ [info], by simp [hq0], hc0, h3⟩)
  | handleImmediately info =>
      have hsf : stepSF s (Op.handleImmediately info) = [] := by simp [stepSF, hs']
      rw [hsf, List.append_nil]
      cases hm : missingProperty { info with hasResult := false, sendCompletedMessage := false } with
      | some prop =>
          have heq : (step s (Op.handleImmediately info)).1 = s := by
            simp [step, hs', executeHandleImmediately, hm]
          rw [heq]
          exact ⟨hs', k, hk, hqids, hcase⟩
      | none =>
          have heq : (step s (Op.handleImmediately info)).1
              = { s with
                  speakInfoQueue := s.speakInfoQueue
                    ++ [{ info with hasResult := false, sendCompletedMessage := false }],
                  admittedOrder := s.admittedOrder ++ [info.messageId] } := by
            simp [step, hs', executeHandleImmediately, hm, addToDirectiveQueue]
          rw [heq]
          refine ⟨hs', k, ?_, ?_, ?_⟩
          · simp only [List.length_append, List.length_cons, List.length_nil]
            omega
          · rw [queueIds_append, List.drop_append_of_le_length hk, hqids]
            simp [queueIds]
          · rw [List.take_append_of_le_length hk]
            rcases hcase with ⟨h1, h2, h3⟩ | ⟨h1, ⟨info0, rest0, hq0, hc0⟩, h3⟩ |
              ⟨h1, info0, rest0, hq0, hc0, h3⟩
            · exact Or.inl ⟨h1, h2, h3⟩
            · exact Or.inr (Or.inl ⟨h1, ⟨info0,
                rest0 ++ [{ info with hasResult := false, sendCompletedMessage := false }],
                by simp [hq0], hc0⟩, h3⟩)
            · exact Or.inr (Or.inr ⟨h1, info0,
                rest0 ++ [{ info with hasResult := false, sendCompletedMessage := false }],
                by simp [hq0], hc0, h3⟩)
  | focusChanged newFocus =>
      have hsf : stepSF s (Op.focusChanged newFocus) = [] := by simp [stepSF, hs']
      rw [hsf, List.append_nil]
      cases newFocus with
      | foreground =>
          by_cases hp : s.playbackPhase = PlaybackPhase.idle
          · cases hq : s.speakInfoQueue with
            | nil =>
                have heq : (step s (Op.focusChanged FocusState.foreground)).1
                    = { s with
                          currentFocus := FocusState.foreground,
                          desiredState := SpeechSynthesizerState.playing } := by
                  simp [step, hs', executeOnFocusChanged, executeStateChange,
                    setDesiredState, startPlaying, hp, hq]
                rw [heq]
                exact ⟨hs', k, hk, hqids, hcase⟩
            | cons r rest =>
                have heq : (step s (Op.focusChanged FocusState.foreground)).1
                    = { s with
                          currentFocus := FocusState.foreground,
                          desiredState := SpeechSynthesizerState.playing,
                          currentInfo := some r,
                          playbackPhase := PlaybackPhase.playRequested } := by
                  simp [step, hs', executeOnFocusChanged, executeStateChange,
                    setDesiredState, startPlaying, hp, hq]
                rw [heq]
                rcases hcase with ⟨h1, h2, h3⟩ | ⟨h1, h2, h3⟩ | ⟨h1, info0, rest0, hq0, hc0, h3⟩
                · exact ⟨hs', k, hk, hqids,
                    Or.inr (Or.inl ⟨rfl, ⟨r, rest, hq, rfl⟩, h3⟩)⟩
                · exact absurd (hp.symm.trans h1) (by simp)
                · exact absurd (hp.symm.trans h1) (by simp)
          · have heq : (step s (Op.focusChanged FocusState.foreground)).1
                = { s with
                      currentFocus := FocusState.foreground,
                      desiredState := SpeechSynthesizerState.playing } := by
              simp [step, hs', executeOnFocusChanged, executeStateChange,
                setDesiredState, hp]
            rw [heq]
            exact ⟨hs', k, hk, hqids, hcase⟩
      | background =>
          have heq : (step s (Op.focusChanged FocusState.background)).1
              = { s with
                    currentFocus := FocusState.background,
                    desiredState := SpeechSynthesizerState.finished } := by
            by_cases hcs : s.currentState = SpeechSynthesizerState.playing
            · simp [step, hs', executeOnFocusChanged, executeStateChange,
                setDesiredState, hcs]
            · simp [step, hs', executeOnFocusChanged, executeStateChange,
                setDesiredState, hcs]
          rw [heq]
          exact ⟨hs', k, hk, hqids, hcase⟩
      | noFocus =>
          have heq : (step s (Op.focusChanged FocusState.noFocus)).1
              = { s with
                    currentFocus := FocusState.noFocus,
                    desiredState := SpeechSynthesizerState.finished } := by
            by_cases hcs : s.currentState = SpeechSynthesizerState.playing
            · simp [step, hs', executeOnFocusChanged, executeStateChange,
                setDesiredState, hcs]
            · simp [step, hs', executeOnFocusChanged, executeStateChange,
                setDesiredState, hcs]
          rw [heq]
          exact ⟨hs', k, hk, hqids, hcase⟩
  | playbackStarted =>
      have hphase : s.playbackPhase = PlaybackPhase.playRequested := by
        simpa [allowedOp] using hallow
      rcases hcase with ⟨h1, h2, h3⟩ | ⟨h1, ⟨info, rest, hqe, hci⟩, h3⟩ |
        ⟨h1, info, rest, hqe, hci, h3⟩
      · exact absurd (h1.symm.trans hphase) (by simp)
      · have hsf : stepSF s Op.playbackStarted = [SFEvent.startedFor info.messageId] := by
          simp [stepSF, hs', hci]
        have heq : (step s Op.playbackStarted).1
            = { s with
                  currentState := SpeechSynthesizerState.playing,
                  playbackPhase := PlaybackPhase.started } := by
          simp [step, hs', executePlaybackStarted, hci]
        rw [hsf, heq]
        exact ⟨hs', k, hk, hqids,
          Or.inr (Or.inr ⟨rfl, info, rest, hqe, hci, by rw [h3]⟩)⟩
      · exact absurd (h1.symm.trans hphase) (by simp)
  | playbackFinished =>
      have hphase : s.playbackPhase = PlaybackPhase.started := by
        simpa [allowedOp] using hallow
      rcases hcase with ⟨h1, h2, h3⟩ | ⟨h1, ⟨info, rest, hqe, hci⟩, h3⟩ |
        ⟨h1, info, rest, hqe, hci, h3⟩
      · exact absurd (h1.symm.trans hphase) (by simp)
      · exact absurd (h1.symm.trans hphase) (by simp)
      · have hsf : stepSF s Op.playbackFinished = [SFEvent.finishedFor info.messageId] := by
          simp [stepSF, hs', hci]
        have hdrop : s.admittedOrder.drop k = info.messageId :: queueIds rest := by
          rw [← hqids, hqe]
          simp [queueIds]
        obtain ⟨htake, hdrop1, hk1⟩ := take_succ_of_drop_cons s.admittedOrder k
          info.messageId (queueIds rest) hdrop
        have hlog : log ++ [SFEvent.finishedFor info.messageId]
            = pairSeq (s.admittedOrder.take (k + 1)) := by
          rw [h3, htake, pairSeq_append_singleton]
          simp
        have htail : s.speakInfoQueue.tail = rest := by
          simp [hqe]
        cases hrest : rest with
        | nil =>
            cases hfg : s.currentFocus with
            | foreground =>
                have heq : (step s Op.playbackFinished).1
                    = { s with
                          currentState := SpeechSynthesizerState.finished,
                          speakInfoQueue := [],
                          currentInfo := none,
                          playbackPhase := PlaybackPhase.idle,
                          currentFocus := FocusState.noFocus } := by
                  simp [step, hs', executePlaybackFinished, hci, htail, hrest,
                    releaseForegroundFocus, hfg]
                rw [hsf, heq]
                refine ⟨hs', k + 1, hk1, ?_, Or.inl ⟨rfl, rfl, hlog⟩⟩
                rw [hdrop1]
                simp [queueIds, hrest]
            | background =>
                have heq : (step s Op.playbackFinished).1
                    = { s with
                          currentState := SpeechSynthesizerState.finished,
                          speakInfoQueue := [],
                          currentInfo := none,
                          playbackPhase := PlaybackPhase.idle } := by
                  simp [step, hs', executePlaybackFinished, hci, htail, hrest,
                    releaseForegroundFocus, hfg]
                rw [hsf, heq]
                refine ⟨hs', k + 1, hk1, ?_, Or.inl ⟨rfl, rfl, hlog⟩⟩
                rw [hdrop1]
                simp [queueIds, hrest]
            | noFocus =>
                have heq : (step s Op.playbackFinished).1
                    = { s with
                          currentState := SpeechSynthesizerState.finished,
                          speakInfoQueue := [],
                          currentInfo := none,
                          playbackPhase := PlaybackPhase.idle } := by
                  simp [step, hs', executePlaybackFinished, hci, htail, hrest,
                    releaseForegroundFocus, hfg]
                rw [hsf, heq]
                refine ⟨hs', k + 1, hk1, ?_, Or.inl ⟨rfl, rfl, hlog⟩⟩
                rw [hdrop1]
                simp [queueIds, hrest]
        | cons r2 rest2 =>
            have heq : (step s Op.playbackFinished).1
                = { s with
                      currentState := SpeechSynthesizerState.finished,
                      speakInfoQueue := r2 :: rest2,
                      currentInfo := some r2,
                      playbackPhase := PlaybackPhase.playRequested } := by
              simp [step, hs', executePlaybackFinished, hci, htail, hrest, startPlaying]
            rw [hsf, heq]
            refine ⟨hs', k + 1, hk1, ?_, Or.inr (Or.inl ⟨rfl, ⟨r2, rest2, rfl, rfl⟩, hlog⟩)⟩
            rw [hdrop1, ← hrest]
  | provideState t =>
      have hsf : stepSF s (Op.provideState t) = [] := by simp [stepSF, hs']
      rw [hsf, List.append_nil]
      have heq : (step s (Op.provideState t)).1 = s := by
        simp [step, hs', executeProvideState]
      rw [heq]
      exact ⟨hs', k, hk, hqids, hcase⟩

/-- The FIFO invariant holds after every quiet, engine-conforming run. -/
lemma fifoInv_run : ∀ (ops : List Op) (s : ModelState) (log : List SFEvent),
    FifoInv s log → ops.all isQuietOp = true → engineConforming s ops = true →
    FifoInv (run s ops).1 (log ++ runSF s ops) := by
  intro ops
  induction ops with
  | nil =>
      intro s log h _ _
      simpa [run, runSF] using h
  | cons op rest ih =>
      intro s log h hq hc
      simp only [List.all_cons, Bool.and_eq_true] at hq
      simp only [engineConforming, Bool.and_eq_true] at hc
      have h1 := fifoInv_step s op log h hq.1 hc.1
      have h2 := ih (step s op).1 (log ++ stepSF s op) h1 hq.2 hc.2
      simpa [run, runSF, List.append_assoc] using h2

/-- C1: for every execution with no cancellation, no playback error and no shutdown,
delivered by a conforming audio engine, the started/finished callback pairs occur in
exactly the admission (FIFO) order: the processed started/finished log is the
alternating pairing of an admission-order prefix, possibly followed by the started
callback of the next admitted request — hence request i's finished precedes request
i+1's started for every i. -/
theorem fifo_started_finished_pairs (ops : List Op)
    (hquiet : ops.all isQuietOp = true)
    (hconf : engineConforming initialState ops = true) :
    (∃ k, runSF initialState ops
        = pairSeq ((run initialState ops).1.admittedOrder.take k))
    ∨ (∃ k id rest,
        (run initialState ops).1.admittedOrder.drop k = id :: rest ∧
        runSF initialState ops
          = pairSeq ((run initialState ops).1.admittedOrder.take k)
            ++ [SFEvent.startedFor id]) := by
  have hinit : FifoInv initialState [] := by
    refine ⟨rfl, 0, by simp [initialState], by simp [initialState, queueIds], ?_⟩
    exact Or.inl ⟨rfl, rfl, by simp [initialState, pairSeq]⟩
  have h := fifoInv_run ops initialState [] hinit hquiet hconf
  rw [List.nil_append] at h
  obtain ⟨-, k, hk, hqids, hcase⟩ := h
  rcases hcase with ⟨h1, h2, h3⟩ | ⟨h1, h2, h3⟩ | ⟨h1, info, rest, hqe, hci, h3⟩
  · exact Or.inl ⟨k, h3⟩
  · exact Or.inl ⟨k, h3⟩
  · refine Or.inr ⟨k, info.messageId, queueIds rest, ?_, h3⟩
    rw [← hqids, hqe]
    simp [queueIds]

/-- Witness for the FIFO pairing theorem on a concrete quiet conforming run. -/
theorem fifo_started_finished_pairs_witness :
    opsC1.all isQuietOp = true
    ∧ engineConforming initialState opsC1 = true
    ∧ ((∃ k, runSF initialState opsC1
          = pairSeq ((run initialState opsC1).1.admittedOrder.take k))
       ∨ (∃ k id rest,
          (run initialState opsC1).1.admittedOrder.drop k = id :: rest ∧
          runSF initialState opsC1
            = pairSeq ((run initialState opsC1).1.admittedOrder.take k)
              ++ [SFEvent.startedFor id])) :=
  ⟨by decide, by decide, fifo_started_finished_pairs opsC1 (by decide) (by decide)⟩

/-- Resource-release count of a one-longer trace. -/
lemma clearCount_cons (c : ExtCall) (tr : List ExtCall) (id : String) :
    clearCount (c :: tr) id = clearCount tr id + (if isClearOf id c then 1 else 0) :=
  List.countP_cons _ _ _

/-- Report count of a one-longer trace. -/
lemma reportCount_cons (c : ExtCall) (tr : List ExtCall) (id : String) :
    reportCount (c :: tr) id = reportCount tr id + (if isReportOf id c then 1 else 0) :=
  List.countP_cons _ _ _

/-- Play count of a one-longer trace. -/
lemma playCount_cons (c : ExtCall) (tr : List ExtCall) (id : String) :
    playCount (c :: tr) id = playCount tr id + (if isPlayOf id c then 1 else 0) :=
  List.countP_cons _ _ _

/-- Appending calls that release, report and play nothing preserves the invariant. -/
lemma onceInv_append_counts_zero (adm : List String) (s : ModelState) (tr L : List ExtCall)
    (h : OnceInv adm s tr)
    (hc : ∀ id, clearCount L id = 0)
    (hr : ∀ id, reportCount L id = 0)
    (hp : ∀ id, playCount L id = 0) :
    OnceInv adm s (tr ++ L) := by
  obtain ⟨hnd, hpair, hcle1, hclnm, hcur, hrep, hmem, hcladm, hplay, hcur2, hidle⟩ := h
  refine ⟨hnd, hpair, ?_, ?_, hcur, ?_, hmem, ?_, ?_, ?_, hidle⟩
  · intro id
    rw [clearCount_append, hc id]
    simpa using hcle1 id
  · intro id hcl
    rw [clearCount_append, hc id] at hcl
    exact hclnm id (by omega)
  · intro id
    rw [clearCount_append, hc id, reportCount_append, hr id]
    simpa using hrep id
  · intro id hcl
    rw [clearCount_append, hc id] at hcl
    exact hcladm id (by omega)
  · intro id hpl
    rw [playCount_append, hp id] at hpl
    rcases hplay id (by omega) with h1 | ⟨info, h2, h3, h4⟩
    · exact Or.inl (by rw [clearCount_append, hc id]; omega)
    · exact Or.inr ⟨info, h2, h3, by rw [clearCount_append, hc id]; omega⟩
  · intro info hinfo
    obtain ⟨h1, h2⟩ := hcur2 info hinfo
    constructor
    · rw [clearCount_append, hc]
      omega
    · rw [playCount_append]
      omega

/-- Widening the admitted-id list preserves the invariant. -/
lemma onceInv_mono (adm adm' : List String) (s : ModelState) (tr : List ExtCall)
    (h : OnceInv adm s tr) (hsub : ∀ id, id ∈ adm → id ∈ adm') :
    OnceInv adm' s tr := by
  obtain ⟨hnd, hpair, hcle1, hclnm, hcur, hrep, hmem, hcladm, hplay, hcur2, hidle⟩ := h
  exact ⟨hnd, hpair, hcle1, hclnm, hcur, hrep,
    fun id hm => hsub id (hmem id hm),
    fun id hcl => hsub id (hcladm id hcl),
    hplay, hcur2, hidle⟩

/-- The once-invariant is preserved by pre-admission of a fresh request. -/
lemma onceInv_preHandle (adm : List String) (s : ModelState) (tr : List ExtCall)
    (info : SpeakDirectiveInfo)
    (h : OnceInv adm s tr) (hs' : s.isShutdown = false)
    (hfresh : info.messageId ∉ adm) :
    OnceInv (adm ++ [info.messageId]) (step s (Op.preHandle info)).1
      (tr ++ (step s (Op.preHandle info)).2) := by
  obtain ⟨hnd, hpair, hcle1, hclnm, hcur, hrep, hmem, hcladm, hplay, hcur2, hidle⟩ := h
  have hnotmem : info.messageId ∉ mapIds s.speakDirectiveInfoMap ++ queueIds s.speakInfoQueue :=
    fun hm => hfresh (hmem _ hm)
  have hnotmap : info.messageId ∉ mapIds s.speakDirectiveInfoMap := by
    intro hm
    exact hnotmem (List.mem_append_left _ hm)
  have hnotq : info.messageId ∉ queueIds s.speakInfoQueue := by
    intro hm
    exact hnotmem (List.mem_append_right _ hm)
  have hclear0 : clearCount tr info.messageId = 0 := by
    by_contra hne
    exact hfresh (hcladm _ (by omega))
  have hnotcur : ∀ i0, s.currentInfo = some i0 → i0.messageId ≠ info.messageId := by
    intro i0 hc0 heqid
    obtain ⟨rest, hq⟩ := hcur i0 hc0
    apply hnotq
    rw [hq, ← heqid]
    simp [queueIds]
  cases hm : missingProperty info with
  | some prop =>
      have hstate : (step s (Op.preHandle info)).1 = s := by
        simp [step, hs', executePreHandle, hm]
      have hcalls : (step s (Op.preHandle info)).2
          = [ExtCall.sendExceptionEncountered info.messageId ("missing property " ++ prop)]
            ++ (if info.hasResult then
                  [ExtCall.setFailed info.messageId ("missing property " ++ prop)] else [])
            ++ [ExtCall.clearResources info.messageId] := by
        simp [step, hs', executePreHandle, hm]
      rw [hstate, hcalls]
      have hLclear : ∀ id,
          clearCount ([ExtCall.sendExceptionEncountered info.messageId ("missing property " ++ prop)]
            ++ (if info.hasResult then
                  [ExtCall.setFailed info.messageId ("missing property " ++ prop)] else [])
            ++ [ExtCall.clearResources info.messageId]) id
          = if info.messageId = id then 1 else 0 := by
        intro id
        by_cases hid : info.messageId = id <;>
          cases hres : info.hasResult <;>
            simp [clearCount, List.countP_append, List.countP_cons, isClearOf, hid, hres]
      have hLreport : ∀ id,
          reportCount ([ExtCall.sendExceptionEncountered info.messageId ("missing property " ++ prop)]
            ++ (if info.hasResult then
                  [ExtCall.setFailed info.messageId ("missing property " ++ prop)] else [])
            ++ [ExtCall.clearResources info.messageId]) id
          ≤ if info.messageId = id then 1 else 0 := by
        intro id
        by_cases hid : info.messageId = id <;>
          cases hres : info.hasResult <;>
            simp [reportCount, List.countP_append, List.countP_cons, isReportOf, hid, hres]
      have hLplay : ∀ id,
          playCount ([ExtCall.sendExceptionEncountered info.messageId ("missing property " ++ prop)]
            ++ (if info.hasResult then
                  [ExtCall.setFailed info.messageId ("missing property " ++ prop)] else [])
            ++ [ExtCall.clearResources info.messageId]) id = 0 := by
        intro id
        cases hres : info.hasResult <;>
          simp [playCount, List.countP_append, List.countP_cons, isPlayOf, hres]
      refine ⟨hnd, hpair, ?_, ?_, hcur, ?_, ?_, ?_, ?_, ?_, hidle⟩
      · intro id
        rw [clearCount_append, hLclear id]
        by_cases hid : info.messageId = id
        · rw [← hid]
          rw [hclear0]
          simp
        · have := hcle1 id
          simp [hid]
          omega
      · intro id hcl
        rw [clearCount_append, hLclear id] at hcl
        by_cases hid : info.messageId = id
        · exact hid ▸ ⟨hnotmap, hnotq⟩
        · rw [if_neg hid] at hcl
          exact hclnm id (by omega)
      · intro id
        rw [clearCount_append, hLclear id, reportCount_append]
        have h1 := hrep id
        have h2 := hLreport id
        omega
      · intro id hm2
        exact List.mem_append_left _ (hmem id hm2)
      · intro id hcl
        rw [clearCount_append, hLclear id] at hcl
        by_cases hid : info.messageId = id
        · exact List.mem_append_right _ (hid ▸ List.mem_cons_self _ _)
        · rw [if_neg hid] at hcl
          exact List.mem_append_left _ (hcladm id (by omega))
      · intro id hpl
        rw [playCount_append, hLplay id] at hpl
        rcases hplay id (by omega) with h1 | ⟨i0, h2, h3, h4⟩
        · refine Or.inl ?_
          rw [clearCount_append, hLclear id]
          have hid : info.messageId ≠ id := by
            intro hid
            rw [← hid, hclear0] at h1
            exact absurd h1 (by omega)
          rw [if_neg hid]
          omega
        · refine Or.inr ⟨i0, h2, h3, ?_⟩
          rw [clearCount_append, hLclear id]
          have hid : info.messageId ≠ id := fun hid => hnotcur i0 h2 (h3.trans hid.symm)
          rw [if_neg hid]
          omega
      · intro i0 hc0
        obtain ⟨h1, h2⟩ := hcur2 i0 hc0
        have hid : info.messageId ≠ i0.messageId := fun hid => hnotcur i0 hc0 hid.symm
        constructor
        · rw [clearCount_append, hLclear i0.messageId, if_neg hid]
          omega
        · rw [playCount_append]
          omega
  | none =>
      cases hl : lookupId s.speakDirectiveInfoMap info.messageId with
      | some v =>
          exact absurd (hmem info.messageId
            (List.mem_append_left _ (mem_mapIds_of_lookup hl))) hfresh
      | none =>
          have hstate : (step s (Op.preHandle info)).1
              = { s with speakDirectiveInfoMap :=
                    (info.messageId, info) :: s.speakDirectiveInfoMap } := by
            simp [step, hs', executePreHandle, hm, hl]
          have hcalls : (step s (Op.preHandle info)).2 = [] := by
            simp [step, hs', executePreHandle, hm, hl]
          rw [hstate, hcalls, List.append_nil]
          refine ⟨?_, ?_, hcle1, ?_, hcur, hrep, ?_, ?_, hplay, hcur2, hidle⟩
          · show ((info.messageId :: mapIds s.speakDirectiveInfoMap)
                ++ queueIds s.speakInfoQueue).Nodup
            rw [List.cons_append]
            exact List.nodup_cons.mpr ⟨hnotmem, hnd⟩
          · intro e he
            rcases List.mem_cons.mp he with h1 | h2
            · rw [h1]
            · exact hpair e h2
          · intro id hcl
            have hid : info.messageId ≠ id := by
              intro hid
              rw [← hid, hclear0] at hcl
              exact absurd hcl (by omega)
            obtain ⟨h1, h2⟩ := hclnm id hcl
            constructor
            · show id ∉ info.messageId :: mapIds s.speakDirectiveInfoMap
              rw [List.mem_cons]
              rintro (h3 | h3)
              · exact hid h3.symm
              · exact h1 h3
            · exact h2
          · intro id hm2
            rw [show mapIds ((info.messageId, info) :: s.speakDirectiveInfoMap)
                  = info.messageId :: mapIds s.speakDirectiveInfoMap from rfl,
              List.cons_append, List.mem_cons] at hm2
            rcases hm2 with h1 | h2
            · exact List.mem_append_right _ (h1 ▸ List.mem_cons_self _ _)
            · exact List.mem_append_left _ (hmem id h2)
          · intro id hcl
            exact List.mem_append_left _ (hcladm id hcl)

/-- A member id is counted at least once. -/
lemma countP_beq_pos_of_mem {l : List String} {id : String} (h : id ∈ l) :
    1 ≤ l.countP (fun i => i == id) := by
  have h2 : 0 < l.countP (fun i => i == id) :=
    List.countP_pos_iff.mpr ⟨id, h, beq_self_eq_true id⟩
  omega

/-- Rejecting a fresh request with a single resource release and at most one failure
report preserves the once-invariant. -/
lemma onceInv_reject_fresh (adm : List String) (s : ModelState) (tr L : List ExtCall)
    (id0 : String)
    (h : OnceInv adm s tr) (hfresh : id0 ∉ adm)
    (hLc : ∀ id, clearCount L id = if id0 = id then 1 else 0)
    (hLr : ∀ id, reportCount L id ≤ if id0 = id then 1 else 0)
    (hLp : ∀ id, playCount L id = 0) :
    OnceInv (adm ++ [id0]) s (tr ++ L) := by
  obtain ⟨hnd, hpair, hcle1, hclnm, hcur, hrep, hmem, hcladm, hplay, hcur2, hidle⟩ := h
  have hnotmem : id0 ∉ mapIds s.speakDirectiveInfoMap ++ queueIds s.speakInfoQueue :=
    fun hm => hfresh (hmem _ hm)
  have hclear0 : clearCount tr id0 = 0 := by
    by_contra hne
    exact hfresh (hcladm _ (by omega))
  have hnotcur : ∀ i0, s.currentInfo = some i0 → i0.messageId ≠ id0 := by
    intro i0 hc0 heqid
    obtain ⟨rest, hq⟩ := hcur i0 hc0
    apply hnotmem
    apply List.mem_append_right
    rw [hq, ← heqid]
    simp [queueIds]
  refine ⟨hnd, hpair, ?_, ?_, hcur, ?_, ?_, ?_, ?_, ?_, hidle⟩
  · intro id
    rw [clearCount_append, hLc id]
    by_cases hid : id0 = id
    · rw [← hid, hclear0]
      simp
    · have := hcle1 id
      simp only [if_neg hid]
      omega
  · intro id hcl
    rw [clearCount_append, hLc id] at hcl
    by_cases hid : id0 = id
    · subst hid
      exact ⟨fun hm => hnotmem (List.mem_append_left _ hm),
             fun hm => hnotmem (List.mem_append_right _ hm)⟩
    · rw [if_neg hid] at hcl
      exact hclnm id (by omega)
  · intro id
    rw [reportCount_append, clearCount_append, hLc id]
    have h1 := hrep id
    have h2 := hLr id
    by_cases hid : id0 = id
    · subst hid
      have h3 : (if id0 = id0 then (1 : Nat) else 0) = 1 := if_pos rfl
      rw [h3] at h2 ⊢
      omega
    · rw [if_neg hid] at h2 ⊢
      omega
  · intro id hm2
    exact List.mem_append_left _ (hmem id hm2)
  · intro id hcl
    rw [clearCount_append, hLc id] at hcl
    by_cases hid : id0 = id
    · exact List.mem_append_right _ (hid ▸ List.mem_cons_self _ _)
    · rw [if_neg hid] at hcl
      exact List.mem_append_left _ (hcladm id (by omega))
  · intro id hpl
    rw [playCount_append, hLp id] at hpl
    rcases hplay id (by omega) with h1 | ⟨i0, h2, h3, h4⟩
    · refine Or.inl ?_
      rw [clearCount_append, hLc id]
      have hid : id0 ≠ id := by
        intro hid
        rw [← hid, hclear0] at h1
        exact absurd h1 (by omega)
      rw [if_neg hid]
      omega
    · refine Or.inr ⟨i0, h2, h3, ?_⟩
      rw [clearCount_append, hLc id]
      have hid : id0 ≠ id := fun hid => hnotcur i0 h2 (h3.trans hid.symm)
      rw [if_neg hid]
      omega
  · intro i0 hc0
    obtain ⟨h1, h2⟩ := hcur2 i0 hc0
    have hid : id0 ≠ i0.messageId := fun hid => hnotcur i0 hc0 hid.symm
    constructor
    · rw [clearCount_append, hLc i0.messageId, if_neg hid]
      omega
    · rw [playCount_append]
      omega

/-- Moving an entry from the registry to the back of the playback queue (admission)
preserves the once-invariant without touching the trace. -/
lemma onceInv_admit_state (adm : List String) (s : ModelState) (tr : List ExtCall)
    (messageId : String) (info : SpeakDirectiveInfo)
    (h : OnceInv adm s tr)
    (hl : lookupId s.speakDirectiveInfoMap messageId = some info) :
    OnceInv adm
      { s with
          speakDirectiveInfoMap := removeKey s.speakDirectiveInfoMap messageId,
          speakInfoQueue := s.speakInfoQueue ++ [info],
          admittedOrder := s.admittedOrder ++ [messageId] }
      tr := by
  obtain ⟨hnd, hpair, hcle1, hclnm, hcur, hrep, hmem, hcladm, hplay, hcur2, hidle⟩ := h
  have hinfoid : info.messageId = messageId := hpair (messageId, info) (lookupId_some_mem hl)
  have hmidmem : messageId ∈ mapIds s.speakDirectiveInfoMap := mem_mapIds_of_lookup hl
  have hpermMap := mapIds_removeKey_perm hl
  have hqids : queueIds (s.speakInfoQueue ++ [info])
      = queueIds s.speakInfoQueue ++ [messageId] := by
    simp [queueIds, hinfoid]
  have hpermAll : List.Perm
      (mapIds (removeKey s.speakDirectiveInfoMap messageId)
        ++ (queueIds s.speakInfoQueue ++ [messageId]))
      (mapIds s.speakDirectiveInfoMap ++ queueIds s.speakInfoQueue) := by
    have p1 : List.Perm
        (mapIds (removeKey s.speakDirectiveInfoMap messageId)
          ++ (queueIds s.speakInfoQueue ++ [messageId]))
        (mapIds (removeKey s.speakDirectiveInfoMap messageId)
          ++ (messageId :: queueIds s.speakInfoQueue)) :=
      List.Perm.append_left _ (List.perm_append_singleton _ _)
    have p2 : List.Perm
        (mapIds (removeKey s.speakDirectiveInfoMap messageId)
          ++ (messageId :: queueIds s.speakInfoQueue))
        (messageId :: (mapIds (removeKey s.speakDirectiveInfoMap messageId)
          ++ queueIds s.speakInfoQueue)) :=
      List.perm_middle
    have p3 : List.Perm
        (mapIds s.speakDirectiveInfoMap ++ queueIds s.speakInfoQueue)
        (messageId :: (mapIds (removeKey s.speakDirectiveInfoMap messageId)
          ++ queueIds s.speakInfoQueue)) :=
      hpermMap.append_right _
    exact (p1.trans p2).trans p3.symm
  refine ⟨?_, ?_, hcle1, ?_, ?_, hrep, ?_, hcladm, hplay, hcur2, hidle⟩
  · show (mapIds (removeKey s.speakDirectiveInfoMap messageId)
        ++ queueIds (s.speakInfoQueue ++ [info])).Nodup
    rw [hqids]
    exact hpermAll.symm.nodup hnd
  · intro e he
    exact hpair e (removeKey_subset e he)
  · intro id hcl
    obtain ⟨h1, h2⟩ := hclnm id hcl
    constructor
    · intro hm2
      apply h1
      exact hpermMap.mem_iff.mpr (List.mem_cons_of_mem _ hm2)
    · show id ∉ queueIds (s.speakInfoQueue ++ [info])
      rw [hqids]
      intro hm2
      rcases List.mem_append.mp hm2 with h3 | h3
      · exact h2 h3
      · rcases List.mem_singleton.mp h3 with h4
        exact h1 (h4 ▸ hmidmem)
  · intro i0 hc0
    obtain ⟨rest, hq⟩ := hcur i0 hc0
    exact ⟨rest ++ [info], by simp [hq]⟩
  · intro id hm2
    have hm3 : id ∈ mapIds (removeKey s.speakDirectiveInfoMap messageId)
        ++ queueIds (s.speakInfoQueue ++ [info]) := hm2
    rw [hqids] at hm3
    exact hmem id (hpermAll.mem_iff.mp hm3)

/-- Appending a fresh request to the playback queue preserves the once-invariant
without touching the trace. -/
lemma onceInv_enqueue_fresh (adm : List String) (s : ModelState) (tr : List ExtCall)
    (info : SpeakDirectiveInfo)
    (h : OnceInv adm s tr) (hfresh : info.messageId ∉ adm) :
    OnceInv (adm ++ [info.messageId])
      { s with
          speakInfoQueue := s.speakInfoQueue ++ [info],
          admittedOrder := s.admittedOrder ++ [info.messageId] }
      tr := by
  obtain ⟨hnd, hpair, hcle1, hclnm, hcur, hrep, hmem, hcladm, hplay, hcur2, hidle⟩ := h
  have hnotmem : info.messageId ∉ mapIds s.speakDirectiveInfoMap ++ queueIds s.speakInfoQueue :=
    fun hm => hfresh (hmem _ hm)
  have hclear0 : clearCount tr info.messageId = 0 := by
    by_contra hne
    exact hfresh (hcladm _ (by omega))
  refine ⟨?_, hpair, hcle1, ?_, ?_, hrep, ?_, ?_, hplay, hcur2, hidle⟩
  · show (mapIds s.speakDirectiveInfoMap ++ queueIds (s.speakInfoQueue ++ [info])).Nodup
    rw [queueIds_append]
    have hp : List.Perm
        (mapIds s.speakDirectiveInfoMap ++ (queueIds s.speakInfoQueue ++ [info.messageId]))
        (info.messageId :: (mapIds s.speakDirectiveInfoMap ++ queueIds s.speakInfoQueue)) := by
      rw [← List.append_assoc]
      exact List.perm_append_singleton _ _
    exact hp.symm.nodup (List.nodup_cons.mpr ⟨hnotmem, hnd⟩)
  · intro id hcl
    obtain ⟨h1, h2⟩ := hclnm id hcl
    refine ⟨h1, ?_⟩
    show id ∉ queueIds (s.speakInfoQueue ++ [info])
    rw [queueIds_append]
    intro hm2
    rcases List.mem_append.mp hm2 with h3 | h3
    · exact h2 h3
    · rcases List.mem_singleton.mp h3 with h4
      rw [h4] at hcl
      rw [hclear0] at hcl
      exact absurd hcl (by omega)
  · intro i0 hc0
    obtain ⟨rest, hq⟩ := hcur i0 hc0
    exact ⟨rest ++ [info], by simp [hq]⟩
  · intro id hm2
    have hm3 : id ∈ mapIds s.speakDirectiveInfoMap ++ queueIds (s.speakInfoQueue ++ [info]) := hm2
    rw [queueIds_append, ← List.append_assoc] at hm3
    rcases List.mem_append.mp hm3 with h3 | h3
    · exact List.mem_append_left _ (hmem id h3)
    · rcases List.mem_singleton.mp h3 with h4
      exact List.mem_append_right _ (h4 ▸ List.mem_cons_self _ _)
  · intro id hcl
    exact List.mem_append_left _ (hcladm id hcl)

/-- The once-invariant is preserved by admission. -/
lemma onceInv_handle (adm : List String) (s : ModelState) (tr : List ExtCall)
    (messageId : String)
    (h : OnceInv adm s tr) (hs' : s.isShutdown = false) :
    OnceInv adm (step s (Op.handle messageId)).1 (tr ++ (step s (Op.handle messageId)).2) := by
  cases hl : lookupId s.speakDirectiveInfoMap messageId with
  | none =>
      have hstate : (step s (Op.handle messageId)).1 = s := by
        simp [step, hs', executeHandle, hl]
      have hcalls : (step s (Op.handle messageId)).2
          = [ExtCall.sendExceptionEncountered messageId "unknown messageId"] := by
        simp [step, hs', executeHandle, hl]
      rw [hstate, hcalls]
      refine onceInv_append_counts_zero adm s tr _ h ?_ ?_ ?_ <;>
        · intro id
          simp [clearCount, reportCount, playCount, List.countP_cons, isClearOf,
            isReportOf, isPlayOf]
  | some info =>
      have hstate : (step s (Op.handle messageId)).1
          = { s with
              speakDirectiveInfoMap := removeKey s.speakDirectiveInfoMap messageId,
              speakInfoQueue := s.speakInfoQueue ++ [info],
              admittedOrder := s.admittedOrder ++ [info.messageId] } := by
        simp [step, hs', executeHandle, hl, addToDirectiveQueue]
      have hcz : ∀ id, clearCount (step s (Op.handle messageId)).2 id = 0 := by
        intro id
        cases hq : s.speakInfoQueue <;>
          simp [step, hs', executeHandle, hl, addToDirectiveQueue, hq, clearCount,
            List.countP_cons, isClearOf]
      have hrz : ∀ id, reportCount (step s (Op.handle messageId)).2 id = 0 := by
        intro id
        cases hq : s.speakInfoQueue <;>
          simp [step, hs', executeHandle, hl, addToDirectiveQueue, hq, reportCount,
            List.countP_cons, isReportOf]
      have hpz : ∀ id, playCount (step s (Op.handle messageId)).2 id = 0 := by
        intro id
        cases hq : s.speakInfoQueue <;>
          simp [step, hs', executeHandle, hl, addToDirectiveQueue, hq, playCount,
            List.countP_cons, isPlayOf]
      have h2 := onceInv_append_counts_zero adm s tr (step s (Op.handle messageId)).2 h hcz hrz hpz
      have h3 := onceInv_admit_state adm s (tr ++ (step s (Op.handle messageId)).2)
        messageId info h2 hl
      rw [hstate]
      exact h3

/-- The once-invariant is preserved by single-shot admission of a fresh request. -/
lemma onceInv_handleImmediately (adm : List String) (s : ModelState) (tr : List ExtCall)
    (info : SpeakDirectiveInfo)
    (h : OnceInv adm s tr) (hs' : s.isShutdown = false)
    (hfresh : info.messageId ∉ adm) :
    OnceInv (adm ++ [info.messageId]) (step s (Op.handleImmediately info)).1
      (tr ++ (step s (Op.handleImmediately info)).2) := by
  cases hm : missingProperty { info with hasResult := false, sendCompletedMessage := false } with
  | some prop =>
      have hstate : (step s (Op.handleImmediately info)).1 = s := by
        simp [step, hs', executeHandleImmediately, hm]
      have hcalls : (step s (Op.handleImmediately info)).2
          = [ExtCall.sendExceptionEncountered info.messageId ("missing property " ++ prop),
             ExtCall.clearResources info.messageId] := by
        simp [step, hs', executeHandleImmediately, hm]
      rw [hstate, hcalls]
      refine onceInv_reject_fresh adm s tr _ info.messageId h hfresh ?_ ?_ ?_
      · intro id
        by_cases hid : info.messageId = id <;>
          simp [clearCount, List.countP_cons, isClearOf, hid]
      · intro id
        by_cases hid : info.messageId = id <;>
          simp [reportCount, List.countP_cons, isReportOf, hid]
      · intro id
        simp [playCount, List.countP_cons, isPlayOf]
  | none =>
      have hstate : (step s (Op.handleImmediately info)).1
          = { s with
              speakInfoQueue := s.speakInfoQueue
                ++ [{ info with hasResult := false, sendCompletedMessage := false }],
              admittedOrder := s.admittedOrder ++ [info.messageId] } := by
        simp [step, hs', executeHandleImmediately, hm, addToDirectiveQueue]
      have hcz : ∀ id, clearCount (step s (Op.handleImmediately info)).2 id = 0 := by
        intro id
        cases hq : s.speakInfoQueue <;>
          simp [step, hs', executeHandleImmediately, hm, addToDirectiveQueue, hq, clearCount,
            List.countP_cons, isClearOf]
      have hrz : ∀ id, reportCount (step s (Op.handleImmediately info)).2 id = 0 := by
        intro id
        cases hq : s.speakInfoQueue <;>
          simp [step, hs', executeHandleImmediately, hm, addToDirectiveQueue, hq, reportCount,
            List.countP_cons, isReportOf]
      have hpz : ∀ id, playCount (step s (Op.handleImmediately info)).2 id = 0 := by
        intro id
        cases hq : s.speakInfoQueue <;>
          simp [step, hs', executeHandleImmediately, hm, addToDirectiveQueue, hq, playCount,
            List.countP_cons, isPlayOf]
      have h2 := onceInv_append_counts_zero adm s tr (step s (Op.handleImmediately info)).2
        h hcz hrz hpz
      have h3 := onceInv_enqueue_fresh adm s (tr ++ (step s (Op.handleImmediately info)).2)
        { info with hasResult := false, sendCompletedMessage := false } h2 hfresh
      rw [hstate]
      exact h3

/-- The once-invariant is preserved by cancellation. -/
lemma onceInv_cancel (adm : List String) (s : ModelState) (tr : List ExtCall)
    (messageId : String)
    (h : OnceInv adm s tr) (hs' : s.isShutdown = false) :
    OnceInv adm (step s (Op.cancel messageId)).1 (tr ++ (step s (Op.cancel messageId)).2) := by
  have hnc : (∀ i0, s.currentInfo = some i0 → i0.messageId ≠ messageId) →
      OnceInv adm (executeCancelNonCurrent s messageId).1
        (tr ++ (executeCancelNonCurrent s messageId).2) := by
    intro hcurne
    obtain ⟨hnd, hpair, hcle1, hclnm, hcur, hrep, hmem, hcladm, hplay, hcur2, hidle⟩ := h
    have hndm : (mapIds s.speakDirectiveInfoMap).Nodup := (List.nodup_append.mp hnd).1
    have hndq : (queueIds s.speakInfoQueue).Nodup := (List.nodup_append.mp hnd).2.1
    have hdisj : (mapIds s.speakDirectiveInfoMap).Disjoint (queueIds s.speakInfoQueue) :=
      (List.nodup_append.mp hnd).2.2
    have hLc : ∀ id, clearCount [ExtCall.clearResources messageId] id
        = if messageId = id then 1 else 0 := by
      intro id
      by_cases hid : messageId = id <;> simp [clearCount, List.countP_cons, isClearOf, hid]
    have hLr : ∀ id, reportCount [ExtCall.clearResources messageId] id = 0 := by
      intro id
      simp [reportCount, List.countP_cons, isReportOf]
    have hLp : ∀ id, playCount [ExtCall.clearResources messageId] id = 0 := by
      intro id
      simp [playCount, List.countP_cons, isPlayOf]
    by_cases hcq : containsId s.speakInfoQueue messageId = true
    · have hmemq : messageId ∈ queueIds s.speakInfoQueue := (containsId_iff _ _).mp hcq
      have hclear0 : clearCount tr messageId = 0 := by
        by_contra hne
        exact (hclnm messageId (by omega)).2 hmemq
      have hstate : (executeCancelNonCurrent s messageId).1
          = { s with speakInfoQueue := removeById s.speakInfoQueue messageId } := by
        simp [executeCancelNonCurrent, hcq]
      have hcalls : (executeCancelNonCurrent s messageId).2
          = [ExtCall.clearResources messageId] := by
        simp [executeCancelNonCurrent, hcq]
      rw [hstate, hcalls]
      have hpermQ := queueIds_removeById_perm hmemq
      have hmidnotm : messageId ∉ mapIds s.speakDirectiveInfoMap :=
        fun hm => hdisj hm hmemq
      have hndq2 : (messageId :: queueIds (removeById s.speakInfoQueue messageId)).Nodup :=
        hpermQ.nodup hndq
      have hmidnotq2 : messageId ∉ queueIds (removeById s.speakInfoQueue messageId) :=
        (List.nodup_cons.mp hndq2).1
      have hsubq : ∀ id, id ∈ queueIds (removeById s.speakInfoQueue messageId) →
          id ∈ queueIds s.speakInfoQueue := by
        intro id hid
        exact hpermQ.mem_iff.mpr (List.mem_cons_of_mem _ hid)
      refine ⟨?_, hpair, ?_, ?_, ?_, ?_, ?_, ?_, ?_, ?_, hidle⟩
      · show (mapIds s.speakDirectiveInfoMap
            ++ queueIds (removeById s.speakInfoQueue messageId)).Nodup
        have hnd3 : (mapIds s.speakDirectiveInfoMap
            ++ (messageId :: queueIds (removeById s.speakInfoQueue messageId))).Nodup :=
          (hpermQ.append_left (mapIds s.speakDirectiveInfoMap)).nodup hnd
        exact List.Nodup.sublist
          ((List.sublist_cons_self _ _).append_left _) hnd3
      · intro id
        rw [clearCount_append, hLc id]
        by_cases hid : messageId = id
        · rw [← hid, hclear0]
          simp
        · rw [if_neg hid]
          have := hcle1 id
          omega
      · intro id hcl
        rw [clearCount_append, hLc id] at hcl
        by_cases hid : messageId = id
        · subst hid
          exact ⟨hmidnotm, hmidnotq2⟩
        · rw [if_neg hid] at hcl
          obtain ⟨h1, h2⟩ := hclnm id (by omega)
          exact ⟨h1, fun hm => h2 (hsubq id hm)⟩
      · intro i0 hc0
        have hc0' : s.currentInfo = some i0 := hc0
        obtain ⟨rest, hq⟩ := hcur i0 hc0'
        have hne := hcurne i0 hc0'
        refine ⟨removeById rest messageId, ?_⟩
        show removeById s.speakInfoQueue messageId = i0 :: removeById rest messageId
        rw [hq]
        simp [removeById, hne]
      · intro id
        rw [reportCount_append, clearCount_append, hLr id, hLc id]
        have h1 := hrep id
        by_cases hid : messageId = id
        · rw [if_pos hid]
          omega
        · rw [if_neg hid]
          omega
      · intro id hm2
        have hm3 : id ∈ mapIds s.speakDirectiveInfoMap
            ++ queueIds (removeById s.speakInfoQueue messageId) := hm2
        rcases List.mem_append.mp hm3 with h3 | h3
        · exact hmem id (List.mem_append_left _ h3)
        · exact hmem id (List.mem_append_right _ (hsubq id h3))
      · intro id hcl
        rw [clearCount_append, hLc id] at hcl
        by_cases hid : messageId = id
        · exact hmem id (List.mem_append_right _ (hid ▸ hmemq))
        · rw [if_neg hid] at hcl
          exact hcladm id (by omega)
      · intro id hpl
        rw [playCount_append, hLp id] at hpl
        rcases hplay id (by omega) with h1 | ⟨i0, h2, h3, h4⟩
        · refine Or.inl ?_
          rw [clearCount_append, hLc id]
          have hid : messageId ≠ id := by
            intro hid
            rw [← hid, hclear0] at h1
            exact absurd h1 (by omega)
          rw [if_neg hid]
          omega
        · have hne := hcurne i0 h2
          refine Or.inr ⟨i0, h2, h3, ?_⟩
          rw [clearCount_append, hLc id]
          have hid : messageId ≠ id := fun hid => hne (h3.trans hid.symm)
          rw [if_neg hid]
          omega
      · intro i0 hc0
        have hc0' : s.currentInfo = some i0 := hc0
        obtain ⟨h1, h2⟩ := hcur2 i0 hc0'
        have hne := hcurne i0 hc0'
        constructor
        · rw [clearCount_append, hLc i0.messageId,
            if_neg (fun hx => hne hx.symm)]
          omega
        · rw [playCount_append]
          omega
    · cases hl : lookupId s.speakDirectiveInfoMap messageId with
      | some v =>
          have hmemm : messageId ∈ mapIds s.speakDirectiveInfoMap := mem_mapIds_of_lookup hl
          have hclear0 : clearCount tr messageId = 0 := by
            by_contra hne
            exact (hclnm messageId (by omega)).1 hmemm
          have hmidnotq : messageId ∉ queueIds s.speakInfoQueue :=
            fun hm => hdisj hmemm hm
          have hstate : (executeCancelNonCurrent s messageId).1
              = { s with speakDirectiveInfoMap :=
                    removeKey s.speakDirectiveInfoMap messageId } := by
            simp [executeCancelNonCurrent, hcq, hl]
          have hcalls : (executeCancelNonCurrent s messageId).2
              = [ExtCall.clearResources messageId] := by
            simp [executeCancelNonCurrent, hcq, hl]
          rw [hstate, hcalls]
          have hpermMap := mapIds_removeKey_perm hl
          have hndm2 : (messageId :: mapIds (removeKey s.speakDirectiveInfoMap messageId)).Nodup :=
            hpermMap.nodup hndm
          have hmidnotm2 : messageId ∉ mapIds (removeKey s.speakDirectiveInfoMap messageId) :=
            (List.nodup_cons.mp hndm2).1
          have hsubm : ∀ id, id ∈ mapIds (removeKey s.speakDirectiveInfoMap messageId) →
              id ∈ mapIds s.speakDirectiveInfoMap := by
            intro id hid
            exact hpermMap.mem_iff.mpr (List.mem_cons_of_mem _ hid)
          refine ⟨?_, ?_, ?_, ?_, ?_, ?_, ?_, ?_, ?_, ?_, hidle⟩
          · show (mapIds (removeKey s.speakDirectiveInfoMap messageId)
                ++ queueIds s.speakInfoQueue).Nodup
            have hnd3 : ((messageId :: mapIds (removeKey s.speakDirectiveInfoMap messageId))
                ++ queueIds s.speakInfoQueue).Nodup :=
              (hpermMap.append_right (queueIds s.speakInfoQueue)).nodup hnd
            rw [List.cons_append] at hnd3
            exact (List.nodup_cons.mp hnd3).2
          · intro e he
            exact hpair e (removeKey_subset e he)
          · intro id
            rw [clearCount_append, hLc id]
            by_cases hid : messageId = id
            · rw [← hid, hclear0]
              simp
            · rw [if_neg hid]
              have := hcle1 id
              omega
          · intro id hcl
            rw [clearCount_append, hLc id] at hcl
            by_cases hid : messageId = id
            · subst hid
              exact ⟨hmidnotm2, hmidnotq⟩
            · rw [if_neg hid] at hcl
              obtain ⟨h1, h2⟩ := hclnm id (by omega)
              exact ⟨fun hm => h1 (hsubm id hm), h2⟩
          · intro i0 hc0
            exact hcur i0 hc0
          · intro id
            rw [reportCount_append, clearCount_append, hLr id, hLc id]
            have h1 := hrep id
            by_cases hid : messageId = id
            · rw [if_pos hid]
              omega
            · rw [if_neg hid]
              omega
          · intro id hm2
            have hm3 : id ∈ mapIds (removeKey s.speakDirectiveInfoMap messageId)
                ++ queueIds s.speakInfoQueue := hm2
            rcases List.mem_append.mp hm3 with h3 | h3
            · exact hmem id (List.mem_append_left _ (hsubm id h3))
            · exact hmem id (List.mem_append_right _ h3)
          · intro id hcl
            rw [clearCount_append, hLc id] at hcl
            by_cases hid : messageId = id
            · exact hmem id (List.mem_append_left _ (hid ▸ hmemm))
            · rw [if_neg hid] at hcl
              exact hcladm id (by omega)
          · intro id hpl
            rw [playCount_append, hLp id] at hpl
            rcases hplay id (by omega) with h1 | ⟨i0, h2, h3, h4⟩
            · refine Or.inl ?_
              rw [clearCount_append, hLc id]
              have hid : messageId ≠ id := by
                intro hid
                rw [← hid, hclear0] at h1
                exact absurd h1 (by omega)
              rw [if_neg hid]
              omega
            · have hne := hcurne i0 h2
              refine Or.inr ⟨i0, h2, h3, ?_⟩
              rw [clearCount_append, hLc id]
              have hid : messageId ≠ id := fun hid => hne (h3.trans hid.symm)
              rw [if_neg hid]
              omega
          · intro i0 hc0
            have hc0' : s.currentInfo = some i0 := hc0
            obtain ⟨h1, h2⟩ := hcur2 i0 hc0'
            have hne := hcurne i0 hc0'
            constructor
            · rw [clearCount_append, hLc i0.messageId,
                if_neg (fun hx => hne hx.symm)]
              omega
            · rw [playCount_append]
              omega
      | none =>
          have hstate : (executeCancelNonCurrent s messageId).1 = s := by
            simp [executeCancelNonCurrent, hcq, hl]
          have hcalls : (executeCancelNonCurrent s messageId).2 = [] := by
            simp [executeCancelNonCurrent, hcq, hl]
          rw [hstate, hcalls, List.append_nil]
          exact ⟨hnd, hpair, hcle1, hclnm, hcur, hrep, hmem, hcladm, hplay, hcur2, hidle⟩
  cases hc : s.currentInfo with
  | none =>
      have hstep1 : step s (Op.cancel messageId) = executeCancelNonCurrent s messageId := by
        simp [step, hs', executeCancel, hc]
      rw [hstep1]
      refine hnc ?_
      intro i0 hc0
      rw [hc] at hc0
      cases hc0
  | some info =>
      by_cases hid : info.messageId = messageId
      · have hstate : (step s (Op.cancel messageId)).1 = s := by
          simp [step, hs', executeCancel, hc, hid]
        have hcalls : (step s (Op.cancel messageId)).2 = [ExtCall.stopSpeechPlayer] := by
          simp [step, hs', executeCancel, hc, hid]
        rw [hstate, hcalls]
        refine onceInv_append_counts_zero adm s tr _ h ?_ ?_ ?_ <;>
          · intro id
            simp [clearCount, reportCount, playCount, List.countP_cons, isClearOf,
              isReportOf, isPlayOf]
      · have hstep1 : step s (Op.cancel messageId) = executeCancelNonCurrent s messageId := by
          simp [step, hs', executeCancel, hc, hid]
        rw [hstep1]
        refine hnc ?_
        intro i0 hc0
        rw [hc] at hc0
        cases hc0
        exact hid

/-- The once-invariant is preserved by focus notifications. -/
lemma onceInv_focusChanged (adm : List String) (s : ModelState) (tr : List ExtCall)
    (newFocus : FocusState)
    (h : OnceInv adm s tr) (hs' : s.isShutdown = false) :
    OnceInv adm (step s (Op.focusChanged newFocus)).1
      (tr ++ (step s (Op.focusChanged newFocus)).2) := by
  cases newFocus with
  | background =>
      by_cases hcs : s.currentState = SpeechSynthesizerState.playing
      · have hstate : (step s (Op.focusChanged FocusState.background)).1
            = { s with
                  currentFocus := FocusState.background,
                  desiredState := SpeechSynthesizerState.finished } := by
          simp [step, hs', executeOnFocusChanged, executeStateChange, setDesiredState, hcs]
        have hcalls : (step s (Op.focusChanged FocusState.background)).2
            = [ExtCall.stopSpeechPlayer] := by
          simp [step, hs', executeOnFocusChanged, executeStateChange, setDesiredState, hcs]
        rw [hstate, hcalls]
        refine onceInv_append_counts_zero adm s tr _ h ?_ ?_ ?_ <;>
          · intro id
            simp [clearCount, reportCount, playCount, List.countP_cons, isClearOf,
              isReportOf, isPlayOf]
      · have hstate : (step s (Op.focusChanged FocusState.background)).1
            = { s with
                  currentFocus := FocusState.background,
                  desiredState := SpeechSynthesizerState.finished } := by
          simp [step, hs', executeOnFocusChanged, executeStateChange, setDesiredState, hcs]
        have hcalls : (step s (Op.focusChanged FocusState.background)).2 = [] := by
          simp [step, hs', executeOnFocusChanged, executeStateChange, setDesiredState, hcs]
        rw [hstate, hcalls, List.append_nil]
        exact h
  | noFocus =>
      by_cases hcs : s.currentState = SpeechSynthesizerState.playing
      · have hstate : (step s (Op.focusChanged FocusState.noFocus)).1
            = { s with
                  currentFocus := FocusState.noFocus,
                  desiredState := SpeechSynthesizerState.finished } := by
          simp [step, hs', executeOnFocusChanged, executeStateChange, setDesiredState, hcs]
        have hcalls : (step s (Op.focusChanged FocusState.noFocus)).2
            = [ExtCall.stopSpeechPlayer] := by
          simp [step, hs', executeOnFocusChanged, executeStateChange, setDesiredState, hcs]
        rw [hstate, hcalls]
        refine onceInv_append_counts_zero adm s tr _ h ?_ ?_ ?_ <;>
          · intro id
            simp [clearCount, reportCount, playCount, List.countP_cons, isClearOf,
              isReportOf, isPlayOf]
      · have hstate : (step s (Op.focusChanged FocusState.noFocus)).1
            = { s with
                  currentFocus := FocusState.noFocus,
                  desiredState := SpeechSynthesizerState.finished } := by
          simp [step, hs', executeOnFocusChanged, executeStateChange, setDesiredState, hcs]
        have hcalls : (step s (Op.focusChanged FocusState.noFocus)).2 = [] := by
          simp [step, hs', executeOnFocusChanged, executeStateChange, setDesiredState, hcs]
        rw [hstate, hcalls, List.append_nil]
        exact h
  | foreground =>
      by_cases hp : s.playbackPhase = PlaybackPhase.idle
      · cases hq : s.speakInfoQueue with
        | nil =>
            have hstate : (step s (Op.focusChanged FocusState.foreground)).1
                = { s with
                      currentFocus := FocusState.foreground,
                      desiredState := SpeechSynthesizerState.playing } := by
              simp [step, hs', executeOnFocusChanged, executeStateChange, setDesiredState,
                startPlaying, hp, hq]
            have hcalls : (step s (Op.focusChanged FocusState.foreground)).2 = [] := by
              simp [step, hs', executeOnFocusChanged, executeStateChange, setDesiredState,
                startPlaying, hp, hq]
            rw [hstate, hcalls, List.append_nil]
            exact h
        | cons r rest =>
            have hstate : (step s (Op.focusChanged FocusState.foreground)).1
                = { s with
                      currentFocus := FocusState.foreground,
                      desiredState := SpeechSynthesizerState.playing,
                      currentInfo := some r,
                      playbackPhase := PlaybackPhase.playRequested } := by
              simp [step, hs', executeOnFocusChanged, executeStateChange, setDesiredState,
                startPlaying, hp, hq]
            have hcalls : (step s (Op.focusChanged FocusState.foreground)).2
                = [ExtCall.setSourceAndPlay r.messageId] := by
              simp [step, hs', executeOnFocusChanged, executeStateChange, setDesiredState,
                startPlaying, hp, hq]
            obtain ⟨hnd, hpair, hcle1, hclnm, hcur, hrep, hmem, hcladm, hplay, hcur2, hidle⟩ := h
            have hcurnone : s.currentInfo = none := hidle hp
            have hrq : r.messageId ∈ queueIds s.speakInfoQueue := by
              rw [hq]
              simp [queueIds]
            have hclear0 : clearCount tr r.messageId = 0 := by
              by_contra hne
              exact (hclnm r.messageId (by omega)).2 hrq
            have hLc : ∀ id, clearCount [ExtCall.setSourceAndPlay r.messageId] id = 0 := by
              intro id
              simp [clearCount, List.countP_cons, isClearOf]
            have hLr : ∀ id, reportCount [ExtCall.setSourceAndPlay r.messageId] id = 0 := by
              intro id
              simp [reportCount, List.countP_cons, isReportOf]
            have hLp : ∀ id, playCount [ExtCall.setSourceAndPlay r.messageId] id
                = if r.messageId = id then 1 else 0 := by
              intro id
              by_cases hid : r.messageId = id <;>
                simp [playCount, List.countP_cons, isPlayOf, hid]
            rw [hstate, hcalls]
            refine ⟨hnd, hpair, ?_, ?_, ?_, ?_, hmem, ?_, ?_, ?_, ?_⟩
            · intro id
              rw [clearCount_append, hLc id]
              have := hcle1 id
              omega
            · intro id hcl
              rw [clearCount_append, hLc id] at hcl
              exact hclnm id (by omega)
            · intro i0 hc0
              have hc0' : some r = some i0 := hc0
              have hri : r = i0 := Option.some.inj hc0'
              exact ⟨rest, by rw [hq, hri]⟩
            · intro id
              rw [reportCount_append, clearCount_append, hLr id, hLc id]
              have := hrep id
              omega
            · intro id hcl
              rw [clearCount_append, hLc id] at hcl
              exact hcladm id (by omega)
            · intro id hpl
              rw [playCount_append, hLp id] at hpl
              by_cases hid : r.messageId = id
              · refine Or.inr ⟨r, rfl, hid, ?_⟩
                rw [clearCount_append, hLc id, ← hid, hclear0]
              · rw [if_neg hid] at hpl
                rcases hplay id (by omega) with h1 | ⟨i0, h2, h3, h4⟩
                · refine Or.inl ?_
                  rw [clearCount_append, hLc id]
                  omega
                · rw [hcurnone] at h2
                  cases h2
            · intro i0 hc0
              have hc0' : some r = some i0 := hc0
              have hri : r = i0 := Option.some.inj hc0'
              constructor
              · rw [clearCount_append, hLc i0.messageId, ← hri, hclear0]
              · rw [playCount_append, hLp i0.messageId, ← hri, if_pos rfl]
                omega
            · intro hcon
              exact absurd hcon (by simp)
      · have hstate : (step s (Op.focusChanged FocusState.foreground)).1
            = { s with
                  currentFocus := FocusState.foreground,
                  desiredState := SpeechSynthesizerState.playing } := by
          simp [step, hs', executeOnFocusChanged, executeStateChange, setDesiredState, hp]
        have hcalls : (step s (Op.focusChanged FocusState.foreground)).2 = [] := by
          simp [step, hs', executeOnFocusChanged, executeStateChange, setDesiredState, hp]
        rw [hstate, hcalls, List.append_nil]
        exact h

/-- The once-invariant is preserved by the playback-started callback. -/
lemma onceInv_playbackStarted (adm : List String) (s : ModelState) (tr : List ExtCall)
    (h : OnceInv adm s tr) (hs' : s.isShutdown = false) :
    OnceInv adm (step s Op.playbackStarted).1 (tr ++ (step s Op.playbackStarted).2) := by
  cases hc : s.currentInfo with
  | none =>
      have hstate : (step s Op.playbackStarted).1 = s := by
        simp [step, hs', executePlaybackStarted, hc]
      have hcalls : (step s Op.playbackStarted).2 = [] := by
        simp [step, hs', executePlaybackStarted, hc]
      rw [hstate, hcalls, List.append_nil]
      exact h
  | some info =>
      have hstate : (step s Op.playbackStarted).1
          = { s with
                currentState := SpeechSynthesizerState.playing,
                playbackPhase := PlaybackPhase.started } := by
        simp [step, hs', executePlaybackStarted, hc]
      have hcz : ∀ id, clearCount (step s Op.playbackStarted).2 id = 0 := by
        intro id
        simp [step, hs', executePlaybackStarted, hc, clearCount, List.countP_cons, isClearOf]
      have hrz : ∀ id, reportCount (step s Op.playbackStarted).2 id = 0 := by
        intro id
        simp [step, hs', executePlaybackStarted, hc, reportCount, List.countP_cons, isReportOf]
      have hpz : ∀ id, playCount (step s Op.playbackStarted).2 id = 0 := by
        intro id
        simp [step, hs', executePlaybackStarted, hc, playCount, List.countP_cons, isPlayOf]
      have h2 := onceInv_append_counts_zero adm s tr (step s Op.playbackStarted).2 h hcz hrz hpz
      obtain ⟨hnd, hpair, hcle1, hclnm, hcur, hrep, hmem, hcladm, hplay, hcur2, hidle⟩ := h2
      rw [hstate]
      exact ⟨hnd, hpair, hcle1, hclnm, hcur, hrep, hmem, hcladm, hplay, hcur2,
        fun hcon => absurd hcon (by simp)⟩

/-- Dropping the current request from the head of the queue while releasing its
resources exactly once (and reporting at most once) preserves the once-invariant;
this covers a playback error and a playback finish that drains the queue. -/
lemma onceInv_drop_current (adm : List String) (s : ModelState) (tr L : List ExtCall)
    (info : SpeakDirectiveInfo) (rest : List SpeakDirectiveInfo)
    (h : OnceInv adm s tr)
    (hc : s.currentInfo = some info)
    (hq : s.speakInfoQueue = info :: rest)
    (hLc : ∀ id, clearCount L id = if info.messageId = id then 1 else 0)
    (hLr : ∀ id, reportCount L id ≤ if info.messageId = id then 1 else 0)
    (hLp : ∀ id, playCount L id = 0) :
    OnceInv adm
      { s with
          currentState := SpeechSynthesizerState.finished,
          speakInfoQueue := rest,
          currentInfo := none,
          playbackPhase := PlaybackPhase.idle }
      (tr ++ L) := by
  obtain ⟨hnd, hpair, hcle1, hclnm, hcur, hrep, hmem, hcladm, hplay, hcur2, hidle⟩ := h
  have hqids : queueIds s.speakInfoQueue = info.messageId :: queueIds rest := by
    rw [hq]
    rfl
  have hid1q : info.messageId ∈ queueIds s.speakInfoQueue := by
    rw [hqids]
    exact List.mem_cons_self _ _
  obtain ⟨hclear0, hplay1⟩ := hcur2 info hc
  have hndm : (mapIds s.speakDirectiveInfoMap).Nodup := (List.nodup_append.mp hnd).1
  have hdisj : (mapIds s.speakDirectiveInfoMap).Disjoint (queueIds s.speakInfoQueue) :=
    (List.nodup_append.mp hnd).2.2
  have hid1notm : info.messageId ∉ mapIds s.speakDirectiveInfoMap :=
    fun hm => hdisj hm hid1q
  have hndq : (queueIds s.speakInfoQueue).Nodup := (List.nodup_append.mp hnd).2.1
  have hid1notrest : info.messageId ∉ queueIds rest := by
    rw [hqids] at hndq
    exact (List.nodup_cons.mp hndq).1
  have hrestsub : ∀ id, id ∈ queueIds rest → id ∈ queueIds s.speakInfoQueue := by
    intro id hid
    rw [hqids]
    exact List.mem_cons_of_mem _ hid
  refine ⟨?_, hpair, ?_, ?_, ?_, ?_, ?_, ?_, ?_, ?_, ?_⟩
  · show (mapIds s.speakDirectiveInfoMap ++ queueIds rest).Nodup
    rw [hqids] at hnd
    exact List.Nodup.sublist ((List.sublist_cons_self _ _).append_left _) hnd
  · intro id
    rw [clearCount_append, hLc id]
    by_cases hid : info.messageId = id
    · rw [← hid, hclear0]
      simp
    · rw [if_neg hid]
      have := hcle1 id
      omega
  · intro id hcl
    rw [clearCount_append, hLc id] at hcl
    by_cases hid : info.messageId = id
    · subst hid
      exact ⟨hid1notm, hid1notrest⟩
    · rw [if_neg hid] at hcl
      obtain ⟨h1, h2⟩ := hclnm id (by omega)
      exact ⟨h1, fun hm => h2 (hrestsub id hm)⟩
  · intro i0 hc0
    exact absurd hc0 (by simp)
  · intro id
    rw [reportCount_append, clearCount_append, hLc id]
    have h1 := hrep id
    have h2 := hLr id
    by_cases hid : info.messageId = id
    · rw [if_pos hid] at h2 ⊢
      omega
    · rw [if_neg hid] at h2 ⊢
      omega
  · intro id hm2
    have hm3 : id ∈ mapIds s.speakDirectiveInfoMap ++ queueIds rest := hm2
    rcases List.mem_append.mp hm3 with h3 | h3
    · exact hmem id (List.mem_append_left _ h3)
    · exact hmem id (List.mem_append_right _ (hrestsub id h3))
  · intro id hcl
    rw [clearCount_append, hLc id] at hcl
    by_cases hid : info.messageId = id
    · exact hmem id (List.mem_append_right _ (hid ▸ hid1q))
    · rw [if_neg hid] at hcl
      exact hcladm id (by omega)
  · intro id hpl
    rw [playCount_append, hLp id] at hpl
    by_cases hid : info.messageId = id
    · refine Or.inl ?_
      rw [clearCount_append, hLc id, if_pos hid, ← hid, hclear0]
    · rcases hplay id (by omega) with h1 | ⟨i0, h2, h3, h4⟩
      · refine Or.inl ?_
        rw [clearCount_append, hLc id, if_neg hid]
        omega
      · rw [hc] at h2
        have hi0 : info = i0 := Option.some.inj h2
        exact absurd (hi0 ▸ h3) hid
  · intro i0 hc0
    exact absurd hc0 (by simp)
  · intro _
    rfl

/-- Finishing the current request, releasing its resources exactly once, and
immediately starting the next queued request preserves the once-invariant. -/
lemma onceInv_finish_start_next (adm : List String) (s : ModelState) (tr L : List ExtCall)
    (info r2 : SpeakDirectiveInfo) (rest2 : List SpeakDirectiveInfo)
    (h : OnceInv adm s tr)
    (hc : s.currentInfo = some info)
    (hq : s.speakInfoQueue = info :: r2 :: rest2)
    (hLc : ∀ id, clearCount L id = if info.messageId = id then 1 else 0)
    (hLr : ∀ id, reportCount L id ≤ if info.messageId = id then 1 else 0)
    (hLp : ∀ id, playCount L id = if r2.messageId = id then 1 else 0) :
    OnceInv adm
      { s with
          currentState := SpeechSynthesizerState.finished,
          speakInfoQueue := r2 :: rest2,
          currentInfo := some r2,
          playbackPhase := PlaybackPhase.playRequested }
      (tr ++ L) := by
  obtain ⟨hnd, hpair, hcle1, hclnm, hcur, hrep, hmem, hcladm, hplay, hcur2, hidle⟩ := h
  have hqids : queueIds s.speakInfoQueue
      = info.messageId :: r2.messageId :: queueIds rest2 := by
    rw [hq]
    rfl
  have hid1q : info.messageId ∈ queueIds s.speakInfoQueue := by
    rw [hqids]
    exact List.mem_cons_self _ _
  have hid2q : r2.messageId ∈ queueIds s.speakInfoQueue := by
    rw [hqids]
    exact List.mem_cons_of_mem _ (List.mem_cons_self _ _)
  obtain ⟨hclear0, hplay1⟩ := hcur2 info hc
  have hndm : (mapIds s.speakDirectiveInfoMap).Nodup := (List.nodup_append.mp hnd).1
  have hdisj : (mapIds s.speakDirectiveInfoMap).Disjoint (queueIds s.speakInfoQueue) :=
    (List.nodup_append.mp hnd).2.2
  have hid1notm : info.messageId ∉ mapIds s.speakDirectiveInfoMap :=
    fun hm => hdisj hm hid1q
  have hndq : (queueIds s.speakInfoQueue).Nodup := (List.nodup_append.mp hnd).2.1
  have hid1notrest : info.messageId ∉ r2.messageId :: queueIds rest2 := by
    rw [hqids] at hndq
    exact (List.nodup_cons.mp hndq).1
  have hid12 : info.messageId ≠ r2.messageId := by
    intro hx
    exact hid1notrest (hx ▸ List.mem_cons_self _ _)
  have hclear0r2 : clearCount tr r2.messageId = 0 := by
    by_contra hne
    exact (hclnm r2.messageId (by omega)).2 hid2q
  have hrestsub : ∀ id, id ∈ r2.messageId :: queueIds rest2 →
      id ∈ queueIds s.speakInfoQueue := by
    intro id hid
    rw [hqids]
    exact List.mem_cons_of_mem _ hid
  refine ⟨?_, hpair, ?_, ?_, ?_, ?_, ?_, ?_, ?_, ?_, ?_⟩
  · show (mapIds s.speakDirectiveInfoMap ++ queueIds (r2 :: rest2)).Nodup
    rw [hqids] at hnd
    exact List.Nodup.sublist ((List.sublist_cons_self _ _).append_left _) hnd
  · intro id
    rw [clearCount_append, hLc id]
    by_cases hid : info.messageId = id
    · rw [← hid, hclear0]
      simp
    · rw [if_neg hid]
      have := hcle1 id
      omega
  · intro id hcl
    rw [clearCount_append, hLc id] at hcl
    by_cases hid : info.messageId = id
    · subst hid
      exact ⟨hid1notm, hid1notrest⟩
    · rw [if_neg hid] at hcl
      obtain ⟨h1, h2⟩ := hclnm id (by omega)
      exact ⟨h1, fun hm => h2 (hrestsub id hm)⟩
  · intro i0 hc0
    have hc0' : some r2 = some i0 := hc0
    have hri : r2 = i0 := Option.some.inj hc0'
    exact ⟨rest2, by rw [hri]⟩
  · intro id
    rw [reportCount_append, clearCount_append, hLc id]
    have h1 := hrep id
    have h2 := hLr id
    by_cases hid : info.messageId = id
    · rw [if_pos hid] at h2 ⊢
      omega
    · rw [if_neg hid] at h2 ⊢
      omega
  · intro id hm2
    have hm3 : id ∈ mapIds s.speakDirectiveInfoMap ++ queueIds (r2 :: rest2) := hm2
    rcases List.mem_append.mp hm3 with h3 | h3
    · exact hmem id (List.mem_append_left _ h3)
    · exact hmem id (List.mem_append_right _ (hrestsub id h3))
  · intro id hcl
    rw [clearCount_append, hLc id] at hcl
    by_cases hid : info.messageId = id
    · exact hmem id (List.mem_append_right _ (hid ▸ hid1q))
    · rw [if_neg hid] at hcl
      exact hcladm id (by omega)
  · intro id hpl
    by_cases hid2 : r2.messageId = id
    · refine Or.inr ⟨r2, rfl, hid2, ?_⟩
      rw [clearCount_append, hLc id, if_neg (fun hx => hid12 (hx.trans hid2.symm)),
        ← hid2, hclear0r2]
    · by_cases hid : info.messageId = id
      · refine Or.inl ?_
        rw [clearCount_append, hLc id, if_pos hid, ← hid, hclear0]
      · rw [playCount_append, hLp id, if_neg hid2] at hpl
        rcases hplay id (by omega) with h1 | ⟨i0, h2, h3, h4⟩
        · refine Or.inl ?_
          rw [clearCount_append, hLc id, if_neg hid]
          omega
        · rw [hc] at h2
          have hi0 : info = i0 := Option.some.inj h2
          exact absurd (hi0 ▸ h3) hid
  · intro i0 hc0
    have hc0' : some r2 = some i0 := hc0
    have hri : r2 = i0 := Option.some.inj hc0'
    constructor
    · rw [clearCount_append, hLc i0.messageId, ← hri,
        if_neg (fun hx => hid12 hx), hclear0r2]
    · rw [playCount_append, hLp i0.messageId, ← hri, if_pos rfl]
      omega
  · intro hcon
    exact absurd hcon (by simp)

/-- The once-invariant is preserved by the playback-finished callback. -/
lemma onceInv_playbackFinished (adm : List String) (s : ModelState) (tr : List ExtCall)
    (h : OnceInv adm s tr) (hs' : s.isShutdown = false) :
    OnceInv adm (step s Op.playbackFinished).1 (tr ++ (step s Op.playbackFinished).2) := by
  cases hc : s.currentInfo with
  | none =>
      have hstate : (step s Op.playbackFinished).1 = s := by
        simp [step, hs', executePlaybackFinished, hc]
      have hcalls : (step s Op.playbackFinished).2 = [] := by
        simp [step, hs', executePlaybackFinished, hc]
      rw [hstate, hcalls, List.append_nil]
      exact h
  | some info =>
      obtain ⟨rest, hq⟩ := h.2.2.2.2.1 info hc
      have htail : s.speakInfoQueue.tail = rest := by simp [hq]
      cases hrest : rest with
      | nil =>
          subst hrest
          have hLc : ∀ id, clearCount (step s Op.playbackFinished).2 id
              = if info.messageId = id then 1 else 0 := by
            intro id
            by_cases hid : info.messageId = id <;>
              cases h1 : info.sendPlaybackFinishedMessage <;>
                cases h2 : info.sendCompletedMessage <;>
                  cases hfg : s.currentFocus <;>
                    simp [step, hs', executePlaybackFinished, hc, htail,
                      releaseForegroundFocus, hfg, clearCount, List.countP_append,
                      List.countP_cons, isClearOf, hid, h1, h2]
          have hLr : ∀ id, reportCount (step s Op.playbackFinished).2 id
              ≤ if info.messageId = id then 1 else 0 := by
            intro id
            by_cases hid : info.messageId = id <;>
              cases h1 : info.sendPlaybackFinishedMessage <;>
                cases h2 : info.sendCompletedMessage <;>
                  cases hfg : s.currentFocus <;>
                    simp [step, hs', executePlaybackFinished, hc, htail,
                      releaseForegroundFocus, hfg, reportCount, List.countP_append,
                      List.countP_cons, isReportOf, hid, h1, h2]
          have hLp : ∀ id, playCount (step s Op.playbackFinished).2 id = 0 := by
            intro id
            cases h1 : info.sendPlaybackFinishedMessage <;>
              cases h2 : info.sendCompletedMessage <;>
                cases hfg : s.currentFocus <;>
                  simp [step, hs', executePlaybackFinished, hc, htail,
                    releaseForegroundFocus, hfg, playCount, List.countP_append,
                    List.countP_cons, isPlayOf, h1, h2]
          have hdc := onceInv_drop_current adm s tr (step s Op.playbackFinished).2
            info [] h hc hq hLc hLr hLp
          cases hfg : s.currentFocus with
          | foreground =>
              have hstate : (step s Op.playbackFinished).1
                  = { s with
                        currentState := SpeechSynthesizerState.finished,
                        speakInfoQueue := [],
                        currentInfo := none,
                        playbackPhase := PlaybackPhase.idle,
                        currentFocus := FocusState.noFocus } := by
                simp [step, hs', executePlaybackFinished, hc, htail,
                  releaseForegroundFocus, hfg]
              rw [hstate]
              exact hdc
          | background =>
              have hstate : (step s Op.playbackFinished).1
                  = { s with
                        currentState := SpeechSynthesizerState.finished,
                        speakInfoQueue := [],
                        currentInfo := none,
                        playbackPhase := PlaybackPhase.idle } := by
                simp [step, hs', executePlaybackFinished, hc, htail,
                  releaseForegroundFocus, hfg]
              rw [hstate]
              exact hdc
          | noFocus =>
              have hstate : (step s Op.playbackFinished).1
                  = { s with
                        currentState := SpeechSynthesizerState.finished,
                        speakInfoQueue := [],
                        currentInfo := none,
                        playbackPhase := PlaybackPhase.idle } := by
                simp [step, hs', executePlaybackFinished, hc, htail,
                  releaseForegroundFocus, hfg]
              rw [hstate]
              exact hdc
      | cons r2 rest2 =>
          subst hrest
          have hstate : (step s Op.playbackFinished).1
              = { s with
                    currentState := SpeechSynthesizerState.finished,
                    speakInfoQueue := r2 :: rest2,
                    currentInfo := some r2,
                    playbackPhase := PlaybackPhase.playRequested } := by
            simp [step, hs', executePlaybackFinished, hc, htail, startPlaying]
          have hLc : ∀ id, clearCount (step s Op.playbackFinished).2 id
              = if info.messageId = id then 1 else 0 := by
            intro id
            by_cases hid : info.messageId = id <;>
              cases h1 : info.sendPlaybackFinishedMessage <;>
                cases h2 : info.sendCompletedMessage <;>
                  simp [step, hs', executePlaybackFinished, hc, htail, startPlaying,
                    clearCount, List.countP_append, List.countP_cons, isClearOf, hid, h1, h2]
          have hLr : ∀ id, reportCount (step s Op.playbackFinished).2 id
              ≤ if info.messageId = id then 1 else 0 := by
            intro id
            by_cases hid : info.messageId = id <;>
              cases h1 : info.sendPlaybackFinishedMessage <;>
                cases h2 : info.sendCompletedMessage <;>
                  simp [step, hs', executePlaybackFinished, hc, htail, startPlaying,
                    reportCount, List.countP_append, List.countP_cons, isReportOf, hid, h1, h2]
          have hLp : ∀ id, playCount (step s Op.playbackFinished).2 id
              = if r2.messageId = id then 1 else 0 := by
            intro id
            by_cases hid : r2.messageId = id <;>
              cases h1 : info.sendPlaybackFinishedMessage <;>
                cases h2 : info.sendCompletedMessage <;>
                  simp [step, hs', executePlaybackFinished, hc, htail, startPlaying,
                    playCount, List.countP_append, List.countP_cons, isPlayOf, hid, h1, h2]
          rw [hstate]
          exact onceInv_finish_start_next adm s tr (step s Op.playbackFinished).2
            info r2 rest2 h hc hq hLc hLr hLp

/-- The once-invariant is preserved by the playback-error callback. -/
lemma onceInv_playbackError (adm : List String) (s : ModelState) (tr : List ExtCall)
    (description : String)
    (h : OnceInv adm s tr) (hs' : s.isShutdown = false) :
    OnceInv adm (step s (Op.playbackError description)).1
      (tr ++ (step s (Op.playbackError description)).2) := by
  cases hc : s.currentInfo with
  | none =>
      have hstate : (step s (Op.playbackError description)).1 = s := by
        simp [step, hs', executePlaybackError, hc]
      have hcalls : (step s (Op.playbackError description)).2 = [] := by
        simp [step, hs', executePlaybackError, hc]
      rw [hstate, hcalls, List.append_nil]
      exact h
  | some info =>
      obtain ⟨rest, hq⟩ := h.2.2.2.2.1 info hc
      have htail : s.speakInfoQueue.tail = rest := by simp [hq]
      have hLc : ∀ id, clearCount (step s (Op.playbackError description)).2 id
          = if info.messageId = id then 1 else 0 := by
        intro id
        by_cases hid : info.messageId = id <;>
          cases hres : info.hasResult <;>
            cases hfg : s.currentFocus <;>
              simp [step, hs', executePlaybackError, hc, releaseForegroundFocus, hfg,
                clearCount, List.countP_append, List.countP_cons, isClearOf, hid, hres]
      have hLr : ∀ id, reportCount (step s (Op.playbackError description)).2 id
          ≤ if info.messageId = id then 1 else 0 := by
        intro id
        by_cases hid : info.messageId = id <;>
          cases hres : info.hasResult <;>
            cases hfg : s.currentFocus <;>
              simp [step, hs', executePlaybackError, hc, releaseForegroundFocus, hfg,
                reportCount, List.countP_append, List.countP_cons, isReportOf, hid, hres]
      have hLp : ∀ id, playCount (step s (Op.playbackError description)).2 id = 0 := by
        intro id
        cases hres : info.hasResult <;>
          cases hfg : s.currentFocus <;>
            simp [step, hs', executePlaybackError, hc, releaseForegroundFocus, hfg,
              playCount, List.countP_append, List.countP_cons, isPlayOf, hres]
      have hdc := onceInv_drop_current adm s tr (step s (Op.playbackError description)).2
        info rest h hc hq hLc hLr hLp
      cases hfg : s.currentFocus with
      | foreground =>
          have hstate : (step s (Op.playbackError description)).1
              = { s with
                    currentState := SpeechSynthesizerState.finished,
                    desiredState := SpeechSynthesizerState.finished,
                    speakInfoQueue := rest,
                    currentInfo := none,
                    playbackPhase := PlaybackPhase.idle,
                    currentFocus := FocusState.noFocus } := by
            simp [step, hs', executePlaybackError, hc, htail, releaseForegroundFocus, hfg]
          rw [hstate]
          exact hdc
      | background =>
          have hstate : (step s (Op.playbackError description)).1
              = { s with
                    currentState := SpeechSynthesizerState.finished,
                    desiredState := SpeechSynthesizerState.finished,
                    speakInfoQueue := rest,
                    currentInfo := none,
                    playbackPhase := PlaybackPhase.idle } := by
            simp [step, hs', executePlaybackError, hc, htail, releaseForegroundFocus, hfg]
          rw [hstate]
          exact hdc
      | noFocus =>
          have hstate : (step s (Op.playbackError description)).1
              = { s with
                    currentState := SpeechSynthesizerState.finished,
                    desiredState := SpeechSynthesizerState.finished,
                    speakInfoQueue := rest,
                    currentInfo := none,
                    playbackPhase := PlaybackPhase.idle } := by
            simp [step, hs', executePlaybackError, hc, htail, releaseForegroundFocus, hfg]
          rw [hstate]
          exact hdc

/-- The once-invariant is preserved by state queries. -/
lemma onceInv_provideState (adm : List String) (s : ModelState) (tr : List ExtCall)
    (t : Nat)
    (h : OnceInv adm s tr) (hs' : s.isShutdown = false) :
    OnceInv adm (step s (Op.provideState t)).1 (tr ++ (step s (Op.provideState t)).2) := by
  have hstate : (step s (Op.provideState t)).1 = s := by
    simp [step, hs', executeProvideState]
  have hcalls : (step s (Op.provideState t)).2
      = [ExtCall.setContextState
          (match s.currentInfo with
           | some info => tokenOf info
           | none => "") 0] := by
    simp [step, hs', executeProvideState]
  rw [hstate, hcalls]
  refine onceInv_append_counts_zero adm s tr _ h ?_ ?_ ?_ <;>
    · intro id
      simp [clearCount, reportCount, playCount, List.countP_cons, isClearOf,
        isReportOf, isPlayOf]

/-- Releasing the resources of every registry entry counts one release per key. -/
lemma clearCount_map_clear_entries (m : List (String × SpeakDirectiveInfo)) (id : String) :
    clearCount (m.map (fun e => ExtCall.clearResources e.1)) id
      = (mapIds m).countP (fun i => i == id) := by
  induction m with
  | nil => simp [clearCount, mapIds]
  | cons e rest ih =>
      simp [clearCount, mapIds, List.countP_cons, isClearOf] at *
      omega

/-- Releasing the resources of every queued request counts one release per id. -/
lemma clearCount_map_clear_queue (q : List SpeakDirectiveInfo) (id : String) :
    clearCount (q.map (fun r => ExtCall.clearResources r.messageId)) id
      = (queueIds q).countP (fun i => i == id) := by
  induction q with
  | nil => simp [clearCount, queueIds]
  | cons r rest ih =>
      simp [clearCount, queueIds, List.countP_cons, isClearOf] at *
      omega

/-- The once-invariant is preserved by shutdown. -/
lemma onceInv_shutdown (adm : List String) (s : ModelState) (tr : List ExtCall)
    (h : OnceInv adm s tr) (hs' : s.isShutdown = false) :
    OnceInv adm (step s Op.shutdown).1 (tr ++ (step s Op.shutdown).2) := by
  obtain ⟨hnd, hpair, hcle1, hclnm, hcur, hrep, hmem, hcladm, hplay, hcur2, hidle⟩ := h
  have hstate : (step s Op.shutdown).1
      = { speakDirectiveInfoMap := [],
          speakInfoQueue := [],
          currentState := SpeechSynthesizerState.finished,
          desiredState := SpeechSynthesizerState.finished,
          currentFocus := FocusState.noFocus,
          currentInfo := none,
          isShutdown := true,
          playbackPhase := PlaybackPhase.idle,
          admittedOrder := s.admittedOrder } := by
    simp [step, hs', doShutdown]
  have hcalls : (step s Op.shutdown).2
      = (if s.currentInfo.isSome then [ExtCall.stopSpeechPlayer] else [])
        ++ (s.speakDirectiveInfoMap.map (fun e => ExtCall.clearResources e.1))
        ++ (s.speakInfoQueue.map (fun r => ExtCall.clearResources r.messageId))
        ++ (if s.currentFocus = FocusState.foreground then [ExtCall.releaseChannel] else []) := by
    simp [step, hs', doShutdown]
  have hLc : ∀ id, clearCount (step s Op.shutdown).2 id
      = (mapIds s.speakDirectiveInfoMap ++ queueIds s.speakInfoQueue).countP
          (fun i => i == id) := by
    intro id
    rw [hcalls, clearCount_append, clearCount_append, clearCount_append,
      clearCount_map_clear_entries, clearCount_map_clear_queue, List.countP_append]
    have hstop : clearCount
        (if s.currentInfo.isSome then [ExtCall.stopSpeechPlayer] else []) id = 0 := by
      cases s.currentInfo <;> simp [clearCount, List.countP_cons, isClearOf]
    have hrel : clearCount
        (if s.currentFocus = FocusState.foreground then [ExtCall.releaseChannel] else []) id
        = 0 := by
      by_cases hfg : s.currentFocus = FocusState.foreground <;>
        simp [hfg, clearCount, List.countP_cons, isClearOf]
    rw [hstop, hrel]
    omega
  have hLr : ∀ id, reportCount (step s Op.shutdown).2 id = 0 := by
    intro id
    rw [hcalls]
    cases s.currentInfo <;>
      by_cases hfg : s.currentFocus = FocusState.foreground <;>
        simp [hfg, reportCount, List.countP_append, List.countP_cons, List.countP_map,
          Function.comp, isReportOf]
  have hLp : ∀ id, playCount (step s Op.shutdown).2 id = 0 := by
    intro id
    rw [hcalls]
    cases s.currentInfo <;>
      by_cases hfg : s.currentFocus = FocusState.foreground <;>
        simp [hfg, playCount, List.countP_append, List.countP_cons, List.countP_map,
          Function.comp, isPlayOf]
  rw [hstate]
  refine ⟨?_, ?_, ?_, ?_, ?_, ?_, ?_, ?_, ?_, ?_, ?_⟩
  · simp [mapIds, queueIds]
  · intro e he
    simp at he
  · intro id
    rw [clearCount_append, hLc id]
    by_cases hm1 : id ∈ mapIds s.speakDirectiveInfoMap ++ queueIds s.speakInfoQueue
    · have h1 : clearCount tr id = 0 := by
        by_contra hne
        obtain ⟨ha, hb⟩ := hclnm id (by omega)
        rcases List.mem_append.mp hm1 with hx | hx
        · exact ha hx
        · exact hb hx
      have h2 := countP_beq_le_one_of_nodup hnd id
      omega
    · rw [countP_beq_eq_zero_of_not_mem hm1]
      have := hcle1 id
      omega
  · intro id _
    constructor
    · simp [mapIds]
    · simp [queueIds]
  · intro i0 hc0
    exact absurd hc0 (by simp)
  · intro id
    rw [reportCount_append, clearCount_append, hLr id]
    have := hrep id
    omega
  · intro id hm2
    simp [mapIds, queueIds] at hm2
  · intro id hcl
    rw [clearCount_append, hLc id] at hcl
    by_cases hcl1 : 1 ≤ clearCount tr id
    · exact hcladm id hcl1
    · have hN : 1 ≤ (mapIds s.speakDirectiveInfoMap ++ queueIds s.speakInfoQueue).countP
          (fun i => i == id) := by omega
      exact hmem id (mem_of_countP_beq_pos hN)
  · intro id hpl
    rw [playCount_append, hLp id] at hpl
    refine Or.inl ?_
    rw [clearCount_append, hLc id]
    rcases hplay id (by omega) with h1 | ⟨i0, h2, h3, h4⟩
    · have hnm : id ∉ mapIds s.speakDirectiveInfoMap ++ queueIds s.speakInfoQueue := by
        intro hm1
        obtain ⟨ha, hb⟩ := hclnm id (by omega)
        rcases List.mem_append.mp hm1 with hx | hx
        · exact ha hx
        · exact hb hx
      rw [countP_beq_eq_zero_of_not_mem hnm]
      omega
    · obtain ⟨rest, hqq⟩ := hcur i0 h2
      have hidq : id ∈ queueIds s.speakInfoQueue := by
        rw [hqq, ← h3]
        simp [queueIds]
      have hN1 : 1 ≤ (mapIds s.speakDirectiveInfoMap ++ queueIds s.speakInfoQueue).countP
          (fun i => i == id) :=
        countP_beq_pos_of_mem (List.mem_append_right _ hidq)
      have hN2 := countP_beq_le_one_of_nodup hnd id
      omega
  · intro i0 hc0
    exact absurd hc0 (by simp)
  · intro _
    rfl

/-- The once-invariant is preserved by every executor step whose admission ids are
fresh. -/
lemma onceInv_step (adm : List String) (s : ModelState) (tr : List ExtCall) (op : Op)
    (h : OnceInv adm s tr)
    (hfresh : ∀ id, id ∈ admissionIds [op] → id ∉ adm) :
    OnceInv (adm ++ admissionIds [op]) (step s op).1 (tr ++ (step s op).2) := by
  by_cases hsb : s.isShutdown = true
  · have h1 : (step s op).1 = s := by simp [step, hsb]
    have h2 : (step s op).2 = [] := by simp [step, hsb]
    rw [h1, h2, List.append_nil]
    exact onceInv_mono adm (adm ++ admissionIds [op]) s tr h
      (fun id hm => List.mem_append_left _ hm)
  · have hs' : s.isShutdown = false := by
      cases hb : s.isShutdown
      · rfl
      · exact absurd hb hsb
    cases op with
    | preHandle info =>
        have ha : admissionIds [Op.preHandle info] = [info.messageId] := rfl
        rw [ha]
        exact onceInv_preHandle adm s tr info h hs'
          (hfresh info.messageId (by rw [ha]; exact List.mem_cons_self _ _))
    | handle messageId =>
        have ha : admissionIds [Op.handle messageId] = [] := rfl
        rw [ha, List.append_nil]
        exact onceInv_handle adm s tr messageId h hs'
    | handleImmediately info =>
        have ha : admissionIds [Op.handleImmediately info] = [info.messageId] := rfl
        rw [ha]
        exact onceInv_handleImmediately adm s tr info h hs'
          (hfresh info.messageId (by rw [ha]; exact List.mem_cons_self _ _))
    | cancel messageId =>
        have ha : admissionIds [Op.cancel messageId] = [] := rfl
        rw [ha, List.append_nil]
        exact onceInv_cancel adm s tr messageId h hs'
    | focusChanged newFocus =>
        have ha : admissionIds [Op.focusChanged newFocus] = [] := rfl
        rw [ha, List.append_nil]
        exact onceInv_focusChanged adm s tr newFocus h hs'
    | playbackStarted =>
        have ha : admissionIds [Op.playbackStarted] = [] := rfl
        rw [ha, List.append_nil]
        exact onceInv_playbackStarted adm s tr h hs'
    | playbackFinished =>
        have ha : admissionIds [Op.playbackFinished] = [] := rfl
        rw [ha, List.append_nil]
        exact onceInv_playbackFinished adm s tr h hs'
    | playbackError description =>
        have ha : admissionIds [Op.playbackError description] = [] := rfl
        rw [ha, List.append_nil]
        exact onceInv_playbackError adm s tr description h hs'
    | provideState t =>
        have ha : admissionIds [Op.provideState t] = [] := rfl
        rw [ha, List.append_nil]
        exact onceInv_provideState adm s tr t h hs'
    | shutdown =>
        have ha : admissionIds [Op.shutdown] = [] := rfl
        rw [ha, List.append_nil]
        exact onceInv_shutdown adm s tr h hs'

/-- Splitting the admission ids of an operation sequence at its head. -/
lemma admissionIds_cons (op : Op) (ops : List Op) :
    admissionIds (op :: ops) = admissionIds [op] ++ admissionIds ops := by
  cases op <;> simp [admissionIds]

/-- The once-invariant holds after every run whose admission ids are duplicate-free
and fresh relative to the already-admitted ids. -/
lemma onceInv_run : ∀ (ops : List Op) (adm : List String) (s : ModelState) (tr : List ExtCall),
    OnceInv adm s tr → (adm ++ admissionIds ops).Nodup →
    OnceInv (adm ++ admissionIds ops) (run s ops).1 (tr ++ (run s ops).2) := by
  intro ops
  induction ops with
  | nil =>
      intro adm s tr h _
      simpa [run, admissionIds] using h
  | cons op rest ih =>
      intro adm s tr h hnd
      rw [admissionIds_cons] at hnd
      have hfresh : ∀ id, id ∈ admissionIds [op] → id ∉ adm := by
        intro id hid hadm
        have hdisj : adm.Disjoint (admissionIds [op] ++ admissionIds rest) :=
          (List.nodup_append.mp hnd).2.2
        exact hdisj hadm (List.mem_append_left _ hid)
      have h1 := onceInv_step adm s tr op h hfresh
      have hnd1 : ((adm ++ admissionIds [op]) ++ admissionIds rest).Nodup := by
        rw [List.append_assoc]
        exact hnd
      have h2 := ih (adm ++ admissionIds [op]) (step s op).1 (tr ++ (step s op).2) h1 hnd1
      have hout : (run s (op :: rest)).1 = (run (step s op).1 rest).1 := by
        simp [run]
      have hout2 : (run s (op :: rest)).2 = (step s op).2 ++ (run (step s op).1 rest).2 := by
        simp [run]
      rw [hout, hout2, admissionIds_cons, ← List.append_assoc, ← List.append_assoc]
      exact h2

/-- The once-invariant holds at the fresh agent with an empty trace. -/
lemma onceInv_initial : OnceInv [] initialState [] := by
  refine ⟨?_, ?_, ?_, ?_, ?_, ?_, ?_, ?_, ?_, ?_, ?_⟩ <;>
    simp [initialState, mapIds, queueIds, clearCount, reportCount, playCount]

/-- C3: in every execution with pairwise-distinct admission keys, at most one request
is current at any time (the agent state holds at most one current request), every
request's resources are released at most once over the whole trace, and every request
that was ever handed to the audio engine (became current) is either released exactly
once and no longer current, or still current with its resources not yet released —
so a request that terminates by finish, error, cancel or shutdown is released exactly
once. -/
theorem current_unique_and_released_once (ops : List Op)
    (hdistinct : (admissionIds ops).Nodup) :
    (∀ info1 info2, (run initialState ops).1.currentInfo = some info1 →
        (run initialState ops).1.currentInfo = some info2 → info1 = info2)
    ∧ (∀ id, clearCount (run initialState ops).2 id ≤ 1)
    ∧ (∀ id, 1 ≤ playCount (run initialState ops).2 id →
        (clearCount (run initialState ops).2 id = 1
          ∧ ∀ info, (run initialState ops).1.currentInfo = some info → info.messageId ≠ id)
        ∨ (∃ info, (run initialState ops).1.currentInfo = some info ∧ info.messageId = id
            ∧ clearCount (run initialState ops).2 id = 0)) := by
  have h := onceInv_run ops [] initialState [] onceInv_initial (by simpa using hdistinct)
  rw [List.nil_append, List.nil_append] at h
  obtain ⟨hnd, hpair, hcle1, hclnm, hcur, hrep, hmem, hcladm, hplay, hcur2, hidle⟩ := h
  refine ⟨?_, hcle1, ?_⟩
  · intro info1 info2 h1 h2
    rw [h1] at h2
    exact Option.some.inj h2
  · intro id hpl
    rcases hplay id hpl with h1 | ⟨i0, h2, h3, h4⟩
    · refine Or.inl ⟨h1, ?_⟩
      intro i0 hc0 heq
      have hz := (hcur2 i0 hc0).1
      rw [heq] at hz
      omega
    · exact Or.inr ⟨i0, h2, h3, h4⟩

/-- Witness for the released-once theorem on a concrete full lifecycle. -/
theorem current_unique_and_released_once_witness :
    (admissionIds opsC3).Nodup
    ∧ ((∀ info1 info2, (run initialState opsC3).1.currentInfo = some info1 →
          (run initialState opsC3).1.currentInfo = some info2 → info1 = info2)
       ∧ (∀ id, clearCount (run initialState opsC3).2 id ≤ 1)
       ∧ (∀ id, 1 ≤ playCount (run initialState opsC3).2 id →
          (clearCount (run initialState opsC3).2 id = 1
            ∧ ∀ info, (run initialState opsC3).1.currentInfo = some info →
                info.messageId ≠ id)
          ∨ (∃ info, (run initialState opsC3).1.currentInfo = some info
              ∧ info.messageId = id
              ∧ clearCount (run initialState opsC3).2 id = 0))) :=
  ⟨by decide, current_unique_and_released_once opsC3 (by decide)⟩

/-- C4: in every execution with pairwise-distinct admission keys, each request's
result callback is invoked (completed or failed) at most once over the whole
execution, whatever interleaving of focus changes, playback callbacks, cancellations
and shutdown occurs. -/
theorem result_callback_at_most_once (ops : List Op)
    (hdistinct : (admissionIds ops).Nodup) :
    ∀ id, reportCount (run initialState ops).2 id ≤ 1 := by
  have h := onceInv_run ops [] initialState [] onceInv_initial (by simpa using hdistinct)
  rw [List.nil_append, List.nil_append] at h
  obtain ⟨hnd, hpair, hcle1, hclnm, hcur, hrep, hmem, hcladm, hplay, hcur2, hidle⟩ := h
  intro id
  have h1 := hrep id
  have h2 := hcle1 id
  omega

/-- Witness for the at-most-once-report theorem on a run where a revoke races the
finish. -/
theorem result_callback_at_most_once_witness :
    (admissionIds opsC4).Nodup
    ∧ ∀ id, reportCount (run initialState opsC4).2 id ≤ 1 :=
  ⟨by decide, result_callback_at_most_once opsC4 (by decide)⟩

end SpeechSynth
